import Mathlib

/-!
Verification of the UtyaVPN provisioning engine (src/services/vpn_manager.py)
against its natural-language specification.

Python strings are modelled shallowly as lists of characters (`Str`).
Filesystem state, the Xray user table and the PKI are modelled as explicit
state records; external tools (easyrsa, wg) appear as environment parameters.
Fallible Python code is modelled with `Except`.
-/

namespace UtyaVPN

/-- A Python string, modelled as a list of characters. -/
abbrev Str := List Char

/-- The ASCII whitespace characters removed by Python's default `str.strip()`. -/
def pySpace (c : Char) : Bool :=
  c = ' ' || c = '\t' || c = '\n' || c = '\r' || c = '\x0b' || c = '\x0c'

/-- Python `str.strip()`: drop leading and trailing whitespace. -/
def pyStrip (s : Str) : Str :=
  ((s.dropWhile pySpace).reverse.dropWhile pySpace).reverse

/-- Python `sep.join(xs)`. -/
def pyJoin (sep : Str) (xs : List Str) : Str :=
  List.intercalate sep xs

/-- Helper for Python `str.find`: index of the first occurrence of `pat`,
with `i` the index already scanned past. -/
def firstIdxAux (pat : Str) : Str → Nat → Option Nat
  | [], i => if pat = [] then some i else none
  | c :: rest, i =>
    if pat.isPrefixOf (c :: rest) then some i else firstIdxAux pat rest (i + 1)

/-- Python `haystack.find(pat)`: first index, or `-1` when absent. -/
def pyFind (hay pat : Str) : Int :=
  match firstIdxAux pat hay 0 with
  | some n => (n : Int)
  | none => -1

/-- Python `s.endswith(suffix)` for a string argument. -/
def pyEndswith (s suffix : Str) : Bool :=
  suffix.reverse.isPrefixOf s.reverse

/-- Python `needle in haystack` on strings: substring containment. -/
def pyInStr (needle hay : Str) : Bool :=
  (firstIdxAux needle hay 0).isSome

/- ### Command runner (run_command, src/services/vpn_manager.py:123-163) -/

/-- Outcome of `asyncio.create_subprocess_exec` + `communicate()`:
the subprocess exit code and its decoded stdout/stderr streams. -/
structure ProcResult where
  returncode : Int
  stdoutData : Str
  stderrData : Str

/-- Shallow embedding of `run_command` (src/services/vpn_manager.py:123-163).
Returns the `(stdout, stderr)` pair — `(none, none)` being the failure
sentinel — together with the list of lines printed (the `Running:` line and,
on failure, the two lines printed by `handle_error`). -/
def runCommand (commandArgs : List Str) (p : ProcResult) :
    (Option Str × Option Str) × List Str :=
  let cmdText := pyJoin (" ".data) commandArgs
  let runLine := ("Running: ".data) ++ cmdText
  if p.returncode ≠ 0 then
    let msg := ("Command failed with exit code ".data) ++ (toString p.returncode).data
      ++ (":\n".data) ++ p.stderrData
    ((none, none),
      [runLine, ("Error at line N/A: ".data) ++ cmdText, ("Message: ".data) ++ msg])
  else
    ((some p.stdoutData, some p.stderrData), [runLine])

/- ### Errors raised by the modelled Python code -/

/-- Python exceptions that the modelled code can raise. -/
inductive PyErr where
  /-- Python IOError, raised by `file_lock` on contention. -/
  | ioError
  /-- Python TypeError, raised when `str.endswith` receives a non-string argument. -/
  | typeError
  /-- Python FileNotFoundError, raised when opening a missing file for reading. -/
  | fileNotFound
  deriving DecidableEq, Repr

/- ### File lock (file_lock, src/services/vpn_manager.py:166-192) -/

/-- A filesystem fragment: an association list from paths to file contents. -/
abbrev FS := List (Str × Str)

/-- Does a path exist in the filesystem? -/
def fsExists (fs : FS) (p : Str) : Bool :=
  fs.any (fun e => e.1 == p)

/-- Write (create or overwrite) a file. -/
def fsWrite (fs : FS) (p c : Str) : FS :=
  (p, c) :: fs.filter (fun e => !(e.1 == p))

/-- Remove a file. -/
def fsRemove (fs : FS) (p : Str) : FS :=
  fs.filter (fun e => !(e.1 == p))

/-- Read a file's content, if present. -/
def fsRead (fs : FS) (p : Str) : Option Str :=
  (fs.find? (fun e => e.1 == p)).map (fun e => e.2)

/-- The `.lock` suffix appended to the protected path by `file_lock`. -/
def lockSuffix : Str := ".lock".data

/-- Shallow embedding of the `file_lock` async context manager
(src/services/vpn_manager.py:166-192) wrapped around a critical section
`body`. If `<path>.lock` exists the whole operation fails at once with
IOError and the filesystem is untouched; otherwise the marker is written
with the current process id, the body runs, and the marker is removed on
exit whether the body succeeded or failed. -/
def fileLock {α : Type} (fs : FS) (lockFilePath : Str) (pid : Str)
    (body : FS → FS × Except PyErr α) : FS × Except PyErr α :=
  let lockFile := lockFilePath ++ lockSuffix
  if fsExists fs lockFile then
    (fs, Except.error PyErr.ioError)
  else
    let r := body (fsWrite fs lockFile pid)
    (if fsExists r.1 lockFile then fsRemove r.1 lockFile else r.1, r.2)

/- ### Certificate extraction (extract_cert_content, src/services/vpn_manager.py:195-216) -/

/-- The PEM begin marker searched by `extract_cert_content`. -/
def beginMarker : Str := "-----BEGIN CERTIFICATE-----".data

/-- The PEM end marker searched by `extract_cert_content`. -/
def endMarker : Str := "-----END CERTIFICATE-----".data

/-- Shallow embedding of `extract_cert_content`
(src/services/vpn_manager.py:195-216). The argument is the outcome of the
`aiofiles.open` + `read` attempt: `none` when the file is unreadable (the
caught IOError branch). Returns the `content[start : end + len(endMarker)]`
slice when both markers are found, and the empty string otherwise. -/
def extractCertContent (file : Option Str) : Str :=
  match file with
  | none => []
  | some content =>
    let startIndex := pyFind content beginMarker
    let endIndex := pyFind content endMarker
    if startIndex ≠ -1 ∧ endIndex ≠ -1 then
      (content.take (endIndex + (endMarker.length : Int)).toNat).drop startIndex.toNat
    else []

/- ### Template rendering (render, src/services/vpn_manager.py:316-333) -/

/-- Python `content.replace(pat, rep)` for a nonempty `pat`: replace every
leftmost non-overlapping occurrence, without rescanning the replacement.
(Every pattern `render` uses is a nonempty `"${VAR}"`; for an empty pattern
the content is returned unchanged.) -/
def pyReplace (pat rep : Str) : Str → Str
  | [] => []
  | c :: rest =>
    if h : pat ≠ [] ∧ pat.isPrefixOf (c :: rest) then
      rep ++ pyReplace pat rep ((c :: rest).drop pat.length)
    else
      c :: pyReplace pat rep rest
termination_by s => s.length
decreasing_by
· have hp : pat.length ≠ 0 := fun hz => h.1 (List.length_eq_zero.mp hz)
  simp only [List.length_drop, List.length_cons]
  omega
· simp

/-- The regex class `[a-zA-Z_]` from the `render` cleanup pattern. -/
def nameStart (c : Char) : Bool := c.isAlpha || c = '_'

/-- The regex class `[a-zA-Z_0-9]` from the `render` cleanup pattern. -/
def nameChar (c : Char) : Bool := c.isAlpha || c = '_' || c.isDigit

/-- Length of the match of the regex `\$\{[a-zA-Z_][a-zA-Z_0-9]*}` at the
head of the input (0 when it does not match there). The name run is greedy,
exactly as the backtracking-free Python pattern behaves. -/
def tokenLen (s : Str) : Nat :=
  match s with
  | '$' :: '{' :: c :: rest =>
    if nameStart c then
      match rest.dropWhile nameChar with
      | '}' :: _ => (rest.takeWhile nameChar).length + 4
      | _ => 0
    else 0
  | _ => 0

/-- The cleanup pass `re.sub(r"\$\{[a-zA-Z_][a-zA-Z_0-9]*}", "", content)` of
`render`: delete every leftmost non-overlapping match of the variable-token
pattern. -/
def reSubVars : Str → Str
  | [] => []
  | c :: rest =>
    if h : tokenLen (c :: rest) = 0 then c :: reSubVars rest
    else reSubVars ((c :: rest).drop (tokenLen (c :: rest)))
termination_by s => s.length
decreasing_by
· simp
· simp only [List.length_drop, List.length_cons]
  omega

/-- The literal Python string `f"${{{var_name}}}"`, i.e. `"${name}"`. -/
def pyToken (name : Str) : Str :=
  '$' :: '{' :: (name ++ ['}'])

/-- Shallow embedding of `render` (src/services/vpn_manager.py:316-333),
applied to the template file's content: first each `${VAR}` for the map's
entries is textually replaced (in map order) by its value, then every
remaining variable token is removed by the cleanup regex. -/
def render (content : Str) (vmap : List (Str × Str)) : Str :=
  reSubVars (vmap.foldl (fun acc kv => pyReplace (pyToken kv.1) kv.2 acc) content)

/-- A structured view of a template: a sequence of literal chunks and
variable tokens. Used to state what `render` computes. -/
inductive Seg where
  | lit (s : Str)
  | var (n : Str)
  deriving DecidableEq, Repr

/-- The template text denoted by a segment. -/
def segText : Seg → Str
  | Seg.lit s => s
  | Seg.var n => pyToken n

/-- The template text denoted by a segment list. -/
def segsText (segs : List Seg) : Str :=
  (segs.map segText).flatten

/-- First-match lookup in the vmap map (Python dict lookup; the dict
cannot hold duplicate keys, and with duplicates the first entry wins both
here and in the fold of `render`). -/
def lookupVar (n : Str) : List (Str × Str) → Option Str
  | [] => none
  | kv :: rest => if kv.1 = n then some kv.2 else lookupVar n rest

/-- The specified meaning of rendering (from the claim's words): each
variable token whose name is in the map becomes that variable's value, and
every other variable token is removed (empty string). -/
def renderedSegs (segs : List Seg) (vmap : List (Str × Str)) : Str :=
  (segs.map (fun seg =>
    match seg with
    | Seg.lit s => s
    | Seg.var n => (lookupVar n vmap).getD [])).flatten

/-- A valid regex variable name: nonempty, `[a-zA-Z_]` head, `[a-zA-Z_0-9]`
tail. -/
def validName (n : Str) : Bool :=
  match n with
  | [] => false
  | c :: cs => nameStart c && cs.all nameChar

/-- One `content.replace` pass of the `render` loop, described at the
segment level: variable tokens named `k` become the literal `v`. -/
def substOne (k v : Str) : Seg → Seg
  | Seg.var n => if n = k then Seg.lit v else Seg.var n
  | sg => sg

/-- The whole `render` replacement loop at the segment level: a variable in
the map becomes its (first) value, other segments are unchanged. -/
def substSeg (vmap : List (Str × Str)) : Seg → Seg
  | Seg.var n =>
    match lookupVar n vmap with
    | some v => Seg.lit v
    | none => Seg.var n
  | sg => sg

/-- A well-formed template segment: literal chunks do not contain `$` (so
they cannot take part in a variable token) and variable names fit the
token grammar. -/
def goodSeg : Seg → Bool
  | Seg.lit s => !(s.contains '$')
  | Seg.var n => validName n

/-- A well-formed variables-map entry: a grammatical name, and a value that
does not itself contain `$` (so replaced values cannot create or feed new
variable tokens). -/
def goodEntry (kv : Str × Str) : Bool :=
  validName kv.1 && !(kv.2.contains '$')

/- ### WireGuard IP allocation (add_wireguard, src/services/vpn_manager.py:625-644) -/

/-- Length of a match of `\d{1,3}\.` at the head of the input, 0 when the
regex cannot match there. Backtracking inside `\d{1,3}` never helps: a
shorter digit take is still followed by a digit, never by the required dot,
so the component matches exactly when the full digit run has length 1..3
and a dot follows it. -/
def octetDotLen (s : Str) : Nat :=
  let r := (s.takeWhile Char.isDigit).length
  if 1 ≤ r ∧ r ≤ 3 ∧ (s.drop r).head? = some '.' then r + 1 else 0

/-- Length of a match of a final `\d{1,3}` at the head of the input
(greedy: up to three digits), 0 when no digit is there. -/
def lastOctetLen (s : Str) : Nat :=
  min (s.takeWhile Char.isDigit).length 3

/-- Length of a match of `\d{1,3}\.\d{1,3}\.\d{1,3}\.\d{1,3}` at the head
of the input (0 = no match). -/
def quadLen (s : Str) : Nat :=
  let a := octetDotLen s
  if a = 0 then 0 else
    let b := octetDotLen (s.drop a)
    if b = 0 then 0 else
      let c := octetDotLen (s.drop (a + b))
      if c = 0 then 0 else
        let d := lastOctetLen (s.drop (a + b + c))
        if d = 0 then 0 else a + b + c + d

/-- `re.findall(r"(\d{1,3}\.\d{1,3}\.\d{1,3}\.\d{1,3})", conf_content)`:
all leftmost non-overlapping matches, scanning left to right. -/
def findIPv4s : Str → List Str
  | [] => []
  | c :: rest =>
    if h : quadLen (c :: rest) = 0 then findIPv4s rest
    else (c :: rest).take (quadLen (c :: rest)) :: findIPv4s ((c :: rest).drop (quadLen (c :: rest)))
termination_by s => s.length
decreasing_by
· simp
· simp only [List.length_drop, List.length_cons]
  omega

/-- The literal part of the base-address pattern `Address = `. -/
def addrLit : Str := "Address = ".data

/-- Length of a match of `\d{1,3}\.\d{1,3}\.\d{1,3}` at the head of the
input (0 = no match): two dotted octets then a final greedy `\d{1,3}`. -/
def tripleLen (s : Str) : Nat :=
  let a := octetDotLen s
  if a = 0 then 0 else
    let b := octetDotLen (s.drop a)
    if b = 0 then 0 else
      let d := lastOctetLen (s.drop (a + b))
      if d = 0 then 0 else a + b + d

/-- `re.search(r"Address = (\d{1,3}\.\d{1,3}\.\d{1,3})", conf_content)`,
returning the captured group: scan left to right for the literal followed
by a matching triple, returning the first full match's group. -/
def searchAddress : Str → Option Str
  | [] => none
  | c :: rest =>
    if addrLit.isPrefixOf (c :: rest) then
      let t := tripleLen ((c :: rest).drop addrLit.length)
      if t = 0 then searchAddress rest
      else some (((c :: rest).drop addrLit.length).take t)
    else searchAddress rest

/-- Decimal rendering of a number, as Python `f"{i}"`. -/
def natToStr (i : Nat) : Str := (toString i).data

/-- The candidate IP `f"{base_client_ip}.{i}"`. -/
def mkIp (base : Str) (i : Nat) : Str := base ++ '.' :: natToStr i

/-- The allocation loop `for i in range(2, 255)` of `add_wireguard`:
return the first `f"{base}.{i}"` not among the existing IPv4 tokens, or
`""` when all 253 candidates are taken. `fuel` counts the remaining loop
iterations, starting at 253 with `i = 2`. -/
def findFreeIpGo (base : Str) (existing : List Str) : Nat → Nat → Str
  | 0, _ => []
  | fuel + 1, i =>
    if mkIp base i ∈ existing then findFreeIpGo base existing fuel (i + 1)
    else mkIp base i

/-- The IP allocation of `add_wireguard` given the configuration content
already read: `client_ip` after the `for i in range(2, 255)` loop. -/
def findFreeIp (base : Str) (existing : List Str) : Str :=
  findFreeIpGo base existing 253 2

/-- Outcome of one network's IP-allocation step inside `add_wireguard`. -/
inductive WgAlloc where
  /-- `handle_error("IP assignment", "Could not find base IP ...")` + `continue`. -/
  | noBase
  /-- `handle_error("IP assignment", "No available IPs ...")` + `continue`. -/
  | exhausted
  /-- A client IP was allocated. -/
  | ok (ip : Str)
  deriving DecidableEq, Repr

/-- The base-IP parse and IP-allocation step of `add_wireguard`
(src/services/vpn_manager.py:625-644) as a function of the configuration
content read after the removal pass. -/
def wgAllocateIp (confContent : Str) : WgAlloc :=
  match searchAddress confContent with
  | none => WgAlloc.noBase
  | some base =>
    if findFreeIp base (findIPv4s confContent) = [] then WgAlloc.exhausted
    else WgAlloc.ok (findFreeIp base (findIPv4s confContent))

/-- The `for wg_type in ["antizapret", "vpn"]` loop of `add_wireguard`, seen
through its IP-allocation outcomes: each network's configuration is
processed independently, and a `continue` for one network (missing base IP
or exhausted subnet) does not touch the others. -/
def wgProcessNetworks (confs : List Str) : List WgAlloc :=
  confs.map wgAllocateIp

/- ### WireGuard peer-table surgery (modify_wg_config, src/services/vpn_manager.py:219-268) -/

/-- Python `file.readlines()`: split the content into lines, each keeping
its terminating newline; a final piece without a newline is kept as-is. -/
def pyReadlines : Str → List Str
  | [] => []
  | c :: rest =>
    if h : ((c :: rest).takeWhile (fun x => !(x == '\n'))).length = (c :: rest).length then
      [c :: rest]
    else
      ((c :: rest).take (((c :: rest).takeWhile (fun x => !(x == '\n'))).length + 1))
        :: pyReadlines ((c :: rest).drop (((c :: rest).takeWhile (fun x => !(x == '\n'))).length + 1))
termination_by s => s.length
decreasing_by
  simp only [List.length_drop, List.length_cons]
  omega

/-- The peer-block tag line `f"# Client = {client_name}"`. -/
def tagLine (clientName : Str) : Str := ("# Client = ".data) ++ clientName

/-- The scanning loop of `modify_wg_config`: copy lines, but on a line whose
`strip()` equals the tag, drop it together with the following non-blank
lines and the single blank line that ends the block; report whether any tag
line was found. -/
def removeClientBlocks (tag : Str) : List Str → List Str × Bool
  | [] => ([], false)
  | l :: rest =>
    if pyStrip l = tag then
      ((removeClientBlocks tag
        (rest.drop ((rest.takeWhile (fun x => !(pyStrip x == []))).length + 1))).1, true)
    else
      ((l :: (removeClientBlocks tag rest).1), (removeClientBlocks tag rest).2)
termination_by ls => ls.length
decreasing_by
· simp only [List.length_drop, List.length_cons]
  omega
· simp

/-- The `while new_lines and new_lines[-1].strip() == "": new_lines.pop()`
loop of `modify_wg_config`: drop trailing blank lines. -/
def stripTrailingBlanks (ls : List Str) : List Str :=
  (ls.reverse.dropWhile (fun l => pyStrip l == [])).reverse

/-- Shallow embedding of `modify_wg_config`
(src/services/vpn_manager.py:219-268) on the file's content: remove every
peer block tagged with the client, drop trailing blank lines, append the
new peer block (when given) framed by newlines, and report whether the
client was found. The content written back is the `writelines` of the
resulting fragments. -/
def modifyWgConfig (content : Str) (clientName : Str) (newPeerBlock : Option Str) :
    Str × Bool :=
  let r := removeClientBlocks (tagLine clientName) (pyReadlines content)
  let kept := stripTrailingBlanks r.1
  match newPeerBlock with
  | some b => ((kept ++ [['\n'], b, ['\n']]).flatten, r.2)
  | none => (kept.flatten, r.2)

/-- `modify_wg_config` at the filesystem level: when the configuration file
does not exist it returns `False` without writing. -/
def modifyWgFile (file : Option Str) (clientName : Str) (newPeerBlock : Option Str) :
    Option Str × Bool :=
  match file with
  | none => (none, false)
  | some content =>
    ((modifyWgConfig content clientName newPeerBlock).1, (modifyWgConfig content clientName newPeerBlock).2)

/-- The peer block appended by `add_wireguard`
(src/services/vpn_manager.py:646-650). -/
def peerBlock (clientName priv pub psk ip : Str) : Str :=
  tagLine clientName ++ ("\n# PrivateKey = ".data) ++ pyStrip priv
    ++ ("\n[Peer]\nPublicKey = ".data) ++ pyStrip pub
    ++ ("\nPresharedKey = ".data) ++ pyStrip psk
    ++ ("\nAllowedIPs = ".data) ++ ip ++ ("/32".data)

/- ### Provisioning state model (src/services/vpn_manager.py:337-1062) -/

/-- The two WireGuard networks of the `["antizapret", "vpn"]` loops. -/
inductive WgNet where
  | az
  | gl
  deriving DecidableEq, Repr

/-- Outcome of the remote `xray_client.add_client` call. -/
inductive RemoteAdd where
  /-- The call returned a truthy result. -/
  | ok
  /-- The call returned a falsy result (e.g. duplicate user). -/
  | rejected
  /-- The call raised an exception. -/
  | raised
  deriving DecidableEq, Repr

/-- The provisioning-relevant server state: active client certificates of
the PKI, the two WireGuard peer-table files (none = missing), the local
Xray users table (uuid, email), the remote Xray client registrations
(uuid, email), and the per-identity client artifact directories with their
file names. The PKI certificate effects of the external easyrsa calls are
modelled from the spec (§4.4): `revoke` deactivates the named identity's
certificate, `build-client-full` issues a fresh one. -/
structure VpnState where
  certs : List Str
  wgAz : Option Str
  wgGl : Option Str
  xrayDb : List (Str × Str)
  xrayRemote : List (Str × Str)
  dirs : List (Str × List Str)
  deriving DecidableEq, Repr

/-- The environment of one `create_user`/`delete_user` call: the current
date, which template files exist, the WireGuard server-key presence, stale
lock markers, the `wg genkey`/`pubkey`/`genpsk` outputs per network, Xray
API reachability, the fresh UUID from `utils.generate_random_user_id`, the
remote add outcome, whether the VLESS parameters are configured, and
whether the OpenVPN client key material loaded. -/
structure Env where
  today : Str
  ovpnTemplates : List Str
  wgTemplates : List Str
  certsLoadOk : Bool
  wgServerKey : Bool
  lockAz : Bool
  lockGl : Bool
  wgKeysAz : Str × Str × Str
  wgKeysGl : Str × Str × Str
  xrayReachable : Bool
  newUuid : Str
  remoteAdd : RemoteAdd
  vlessConfigured : Bool

/-- Files of a client artifact directory, when the directory exists. -/
def dirFiles (s : VpnState) (name : Str) : Option (List Str) :=
  (s.dirs.find? (fun d => d.1 == name)).map (fun d => d.2)

/-- Does the client artifact directory exist? -/
def dirExists (s : VpnState) (name : Str) : Bool :=
  (dirFiles s name).isSome

/-- `os.makedirs(..., exist_ok=True)`. -/
def ensureDir (s : VpnState) (name : Str) : VpnState :=
  if dirExists s name then s else { s with dirs := (name, []) :: s.dirs }

/-- Keep only the directory's files satisfying `keep` (the artifact-cleanup
loops). -/
def dirFilter (s : VpnState) (name : Str) (keep : Str → Bool) : VpnState :=
  { s with dirs := s.dirs.map (fun d => if d.1 == name then (d.1, d.2.filter keep) else d) }

/-- Write a file into the directory (overwriting an existing one). -/
def dirAddFile (s : VpnState) (name file : Str) : VpnState :=
  { s with dirs := s.dirs.map (fun d =>
      if d.1 == name then (d.1, file :: d.2.filter (fun f => !(f == file))) else d) }

/-- `shutil.rmtree` of the client directory. -/
def removeDir (s : VpnState) (name : Str) : VpnState :=
  { s with dirs := s.dirs.filter (fun d => !(d.1 == name)) }

/-- `get_user_by_identifier_from_db`: `SELECT * FROM users WHERE email = ?`
(src/services/vpn_manager.py:774-787). -/
def lookupUserRow (db : List (Str × Str)) (email : Str) : Option (Str × Str) :=
  db.find? (fun e => e.2 == email)

/-- `re.sub(r"[^a-zA-Z0-9_.-]", "_", identifier)`. -/
def pySanitize (s : Str) : Str :=
  s.map (fun c => if c.isAlphanum || c = '_' || c = '.' || c = '-' then c else '_')

/-- The `templates` dict of `add_openvpn`
(src/services/vpn_manager.py:473-480): template file name and output
profile name. -/
def ovpnOutputs (today : Str) : List (Str × Str) :=
  [(("antizapret-udp.conf").data, ("AZ-UDP-".data) ++ today ++ (".ovpn".data)),
   (("antizapret-tcp.conf").data, ("AZ-TCP-".data) ++ today ++ (".ovpn".data)),
   (("antizapret.conf").data, ("AZ-U+T-".data) ++ today ++ (".ovpn".data)),
   (("vpn-udp.conf").data, ("GL-UDP-".data) ++ today ++ (".ovpn".data)),
   (("vpn-tcp.conf").data, ("GL-TCP-".data) ++ today ++ (".ovpn".data)),
   (("vpn.conf").data, ("GL-U+T-".data) ++ today ++ (".ovpn".data))]

/-- The per-network client profile templates and output names of
`add_wireguard` (src/services/vpn_manager.py:666-676). -/
def wgOutputs (today : Str) : WgNet → List (Str × Str)
  | WgNet.az =>
    [(("antizapret-client-wg.conf").data, ("AZ-WG-".data) ++ today ++ (".conf".data)),
     (("antizapret-client-am.conf").data, ("AZ-AM-".data) ++ today ++ (".conf".data))]
  | WgNet.gl =>
    [(("vpn-client-wg.conf").data, ("GL-WG-".data) ++ today ++ (".conf".data)),
     (("vpn-client-am.conf").data, ("GL-AM-".data) ++ today ++ (".conf".data))]

/-- The network's peer-table file in the state. -/
def netFile (s : VpnState) : WgNet → Option Str
  | WgNet.az => s.wgAz
  | WgNet.gl => s.wgGl

/-- Replace the network's peer-table file. -/
def setNetFile (s : VpnState) (net : WgNet) (f : Option Str) : VpnState :=
  match net with
  | WgNet.az => { s with wgAz := f }
  | WgNet.gl => { s with wgGl := f }

/-- The other network of the two-element loop. -/
def otherNet : WgNet → WgNet
  | WgNet.az => WgNet.gl
  | WgNet.gl => WgNet.az

/-- The stale-lock marker for the network's configuration file. -/
def envLock (env : Env) : WgNet → Bool
  | WgNet.az => env.lockAz
  | WgNet.gl => env.lockGl

/-- The `wg genkey`/`pubkey`/`genpsk` outputs for the network's pass. -/
def envKeys (env : Env) : WgNet → Str × Str × Str
  | WgNet.az => env.wgKeysAz
  | WgNet.gl => env.wgKeysGl

/-- Shallow embedding of `add_openvpn` (src/services/vpn_manager.py:409-490):
ensure the client directory, delete its old `.ovpn` profiles, revoke the
existing certificate when one is active, issue a fresh one, and — when the
key material loads — write the rendered profile for each existing template. -/
def addOpenvpn (s : VpnState) (env : Env) (clientName : Str) : VpnState :=
  let s1 := dirFilter (ensureDir s clientName) clientName
    (fun f => !(pyEndswith f (".ovpn".data)))
  let certsAfterRevoke :=
    if s1.certs.contains clientName then s1.certs.filter (fun c => !(c == clientName))
    else s1.certs
  let s2 := { s1 with certs := clientName :: certsAfterRevoke }
  if !env.certsLoadOk then s2
  else (ovpnOutputs env.today).foldl
    (fun acc t => if env.ovpnTemplates.contains t.1 then dirAddFile acc clientName t.2 else acc)
    s2

/-- One iteration of the `for wg_type in ["antizapret", "vpn"]` loop of
`add_wireguard` (src/services/vpn_manager.py:613-676): under the file lock
(IOError on a stale lock marker), remove any existing peer block, re-read
the file (FileNotFoundError when it is missing), parse the base IP and
allocate the client IP (a `continue` on failure leaves the removal in
place), append the fresh peer block, and write the two rendered client
profiles for the templates that exist. -/
def addWireguardNet (s : VpnState) (env : Env) (clientName : Str) (net : WgNet) :
    VpnState × Except PyErr Unit :=
  if envLock env net then (s, Except.error PyErr.ioError)
  else
    let r1 := modifyWgFile (netFile s net) clientName none
    let s1 := setNetFile s net r1.1
    match r1.1 with
    | none => (s1, Except.error PyErr.fileNotFound)
    | some conf =>
      match wgAllocateIp conf with
      | WgAlloc.noBase => (s1, Except.ok ())
      | WgAlloc.exhausted => (s1, Except.ok ())
      | WgAlloc.ok ip =>
        let keys := envKeys env net
        let blk := peerBlock clientName keys.1 keys.2.1 keys.2.2 ip
        let s2 := setNetFile s1 net (modifyWgFile (some conf) clientName (some blk)).1
        let s3 := (wgOutputs env.today net).foldl
          (fun acc t =>
            if env.wgTemplates.contains t.1 then dirAddFile acc clientName t.2 else acc)
          s2
        (s3, Except.ok ())

/-- Shallow embedding of `add_wireguard`
(src/services/vpn_manager.py:574-678): ensure the client directory, delete
its old `.conf` profiles, abort when the server keys are missing, then
process the two networks in order (an exception in the first aborts the
second). -/
def addWireguard (s : VpnState) (env : Env) (clientName : Str) :
    VpnState × Except PyErr Unit :=
  let s1 := dirFilter (ensureDir s clientName) clientName
    (fun f => !(pyEndswith f (".conf".data)))
  if !env.wgServerKey then (s1, Except.ok ())
  else
    match addWireguardNet s1 env clientName WgNet.az with
    | (sa, Except.error e) => (sa, Except.error e)
    | (sa, Except.ok _) => addWireguardNet sa env clientName WgNet.gl

/-- Shallow embedding of `handle_add_user`
(src/services/vpn_manager.py:881-961). For an existing identity the old
UUID is reused; the artifact-cleanup loop evaluates
`f.endswith(f.endswith(".json") or f.endswith(".txt"))`, passing a bool to
`str.endswith`, so it raises TypeError as soon as the directory has any
file; otherwise the old remote registration is removed. For a fresh
identity a new UUID row is inserted (abandoning the call when the insert
hits a UNIQUE constraint). Then the remote add runs and, on success and
with the VLESS parameters configured, the dated `.json` and `.txt`
artifacts are written. -/
def handleAddUser (s : VpnState) (env : Env) (identifier : Str) :
    VpnState × Except PyErr Unit :=
  match lookupUserRow s.xrayDb identifier with
  | some row =>
    match dirFiles s identifier with
    | some (_ :: _) => (s, Except.error PyErr.typeError)
    | _ =>
      let s1 := { s with xrayRemote := s.xrayRemote.filter (fun e => !(e.2 == identifier)) }
      handleAddUserTail s1 env identifier row.1
  | none =>
    if s.xrayDb.any (fun e => e.1 == env.newUuid || e.2 == identifier) then
      (s, Except.ok ())
    else
      handleAddUserTail { s with xrayDb := (env.newUuid, identifier) :: s.xrayDb }
        env identifier env.newUuid
where
  /-- The part of `handle_add_user` after the UUID is settled: remote add
  and artifact generation. -/
  handleAddUserTail (s1 : VpnState) (env : Env) (identifier uid : Str) :
      VpnState × Except PyErr Unit :=
    match env.remoteAdd with
    | RemoteAdd.raised => (s1, Except.ok ())
    | RemoteAdd.rejected => (s1, Except.ok ())
    | RemoteAdd.ok =>
      let s2 := { s1 with xrayRemote := (uid, identifier) :: s1.xrayRemote }
      if env.vlessConfigured then
        let cn := pySanitize identifier
        let s3 := dirAddFile (ensureDir s2 cn) cn (("AZ-XR-".data) ++ env.today ++ (".json".data))
        let s4 := dirAddFile (ensureDir s3 cn) cn (("GL-XR-".data) ++ env.today ++ (".txt".data))
        (s4, Except.ok ())
      else (s2, Except.ok ())

/-- Shallow embedding of `create_user`
(src/services/vpn_manager.py:996-1027): OpenVPN init+add under the global
lock, then WireGuard add and Xray add under the per-user lock; a
ConnectionError from `get_xray_client` skips the VLESS step only. -/
def createUser (s : VpnState) (env : Env) (userId : Str) :
    VpnState × Except PyErr Unit :=
  let clientName := 'n' :: userId
  let s1 := addOpenvpn s env clientName
  match addWireguard s1 env clientName with
  | (s2, Except.error e) => (s2, Except.error e)
  | (s2, Except.ok _) =>
    if env.xrayReachable then handleAddUser s2 env clientName
    else (s2, Except.ok ())

/-- Shallow embedding of `delete_openvpn`
(src/services/vpn_manager.py:493-532): revoke the certificate, refresh the
CRL, and delete the identity's `.ovpn` profiles (the server-side key copies
live outside the modelled state). -/
def deleteOpenvpn (s : VpnState) (clientName : Str) : VpnState :=
  let s1 := { s with certs := s.certs.filter (fun c => !(c == clientName)) }
  if dirExists s1 clientName then
    dirFilter s1 clientName (fun f => !(pyEndswith f (".ovpn".data)))
  else s1

/-- Shallow embedding of `delete_wireguard`
(src/services/vpn_manager.py:681-710): remove the peer block from each
network file (each file is rewritten by `modify_wg_config`), resync each
network where the client was found, and only when it was found somewhere
delete the tagged `.conf` artifacts; otherwise log not-found and stop.
Returns the state, the found flag, and the list of resynced networks. -/
def deleteWireguard (s : VpnState) (clientName : Str) :
    VpnState × Bool × List WgNet :=
  let r1 := modifyWgFile s.wgAz clientName none
  let r2 := modifyWgFile s.wgGl clientName none
  let s2 := { s with wgAz := r1.1, wgGl := r2.1 }
  let resyncs := (if r1.2 then [WgNet.az] else []) ++ (if r2.2 then [WgNet.gl] else [])
  if r1.2 || r2.2 then
    let s3 :=
      if dirExists s2 clientName then
        dirFilter s2 clientName (fun f =>
          !(pyEndswith f (".conf".data)
            && (pyInStr ("AZ-".data) f || pyInStr ("GL-".data) f)))
      else s2
    (s3, true, resyncs)
  else (s2, false, resyncs)

/-- Shallow embedding of `handle_remove_user`
(src/services/vpn_manager.py:964-993): stop on a missing identity;
otherwise best-effort remove the remote registration, delete the table row,
and delete the generated `.json`/`.txt` artifacts. -/
def handleRemoveUser (s : VpnState) (identifier : Str) : VpnState :=
  match lookupUserRow s.xrayDb identifier with
  | none => s
  | some _ =>
    let s1 := { s with
      xrayRemote := s.xrayRemote.filter (fun e => !(e.2 == identifier)),
      xrayDb := s.xrayDb.filter (fun e => !(e.2 == identifier)) }
    if dirExists s1 (pySanitize identifier) then
      dirFilter s1 (pySanitize identifier)
        (fun f => !(pyEndswith f (".json".data) || pyEndswith f (".txt".data)))
    else s1

/-- The state of `delete_user` after its three protocol deletions
(OpenVPN, WireGuard, Xray — the latter skipped when the API is
unreachable), just before the final empty-directory cleanup. -/
def deleteUserMid (s : VpnState) (env : Env) (userId : Str) : VpnState :=
  let clientName := 'n' :: userId
  let s1 := deleteOpenvpn s clientName
  let s2 := (deleteWireguard s1 clientName).1
  if env.xrayReachable then handleRemoveUser s2 clientName else s2

/-- Shallow embedding of `delete_user`
(src/services/vpn_manager.py:1030-1062): OpenVPN delete under the global
lock, WireGuard and Xray delete under the per-user lock (ConnectionError
skips the VLESS part), then remove the client directory when it exists and
is empty. -/
def deleteUser (s : VpnState) (env : Env) (userId : Str) : VpnState :=
  match dirFiles (deleteUserMid s env userId) ('n' :: userId) with
  | some [] => removeDir (deleteUserMid s env userId) ('n' :: userId)
  | _ => deleteUserMid s env userId

/- ### Predicates and samples used by the claim statements -/

/-- A valid external user id: a nonempty digit string (the bot passes the
numeric Telegram id). -/
def validUserId (uid : Str) : Bool :=
  !(uid == []) && uid.all Char.isDigit

/-- Number of `# Client = <name>` tag lines in a peer-table file. -/
def tagCount (file : Option Str) (clientName : Str) : Nat :=
  match file with
  | none => 0
  | some c => ((pyReadlines c).filter (fun l => pyStrip l == tagLine clientName)).length

/-- Is the client's tag line present in the peer-table file? (the condition
`modify_wg_config` reports as `client_found`). -/
def tagFound (file : Option Str) (clientName : Str) : Bool :=
  match file with
  | none => false
  | some c => (pyReadlines c).any (fun l => pyStrip l == tagLine clientName)

/-- A single-line string (no embedded newline), as `wg genkey` output after
`strip()`. -/
def noNl (x : Str) : Bool := !(x.contains '\n')

/-- The environment conditions under which `add_wireguard` runs normally:
no stale lock markers, server keys present, and single-line key material. -/
def envWgOk (env : Env) : Bool :=
  !env.lockAz && !env.lockGl && env.wgServerKey
    && noNl (pyStrip env.wgKeysAz.1) && noNl (pyStrip env.wgKeysAz.2.1)
    && noNl (pyStrip env.wgKeysAz.2.2)
    && noNl (pyStrip env.wgKeysGl.1) && noNl (pyStrip env.wgKeysGl.2.1)
    && noNl (pyStrip env.wgKeysGl.2.2)

/-- Does the file content end without a trailing blank line? (its last
`readlines` fragment does not strip to the empty string). -/
def lastLineNotBlank (content : Str) : Bool :=
  match (pyReadlines content).getLast? with
  | none => true
  | some l => !(pyStrip l == [])

/-- A readlines fragment: nonempty, with a newline at most as its final
character. -/
def goodFrag (l : Str) : Bool :=
  !(l == []) && !(l.dropLast.contains '\n')

/-- A well-formed fragment list as produced by `readlines`: every fragment
is `goodFrag` and every fragment except possibly the last ends with a
newline. -/
def chainOk : List Str → Bool
  | [] => true
  | [l] => goodFrag l
  | l :: rest => goodFrag l && (l.getLast? == some '\n') && chainOk rest

/-- A sample antizapret peer-table file. -/
def azSample : Str := "[Interface]\nAddress = 10.29.8.1/24\n".data

/-- A sample antizapret peer-table file with a trailing blank line. -/
def azSampleBlank : Str := "[Interface]\nAddress = 10.29.8.1/24\n\n".data

/-- A sample vpn peer-table file. -/
def glSample : Str := "[Interface]\nAddress = 10.28.8.1/24\n".data

/-- A healthy call environment: all templates present, no stale locks,
single-line keys, reachable Xray API. -/
def envStd : Env :=
  { today := "25-01-02".data
    ovpnTemplates := [("antizapret-udp.conf").data, ("antizapret-tcp.conf").data,
      ("antizapret.conf").data, ("vpn-udp.conf").data, ("vpn-tcp.conf").data,
      ("vpn.conf").data]
    wgTemplates := [("antizapret-client-wg.conf").data, ("antizapret-client-am.conf").data,
      ("vpn-client-wg.conf").data, ("vpn-client-am.conf").data]
    certsLoadOk := true
    wgServerKey := true
    lockAz := false
    lockGl := false
    wgKeysAz := (("APRIV".data), ("APUB".data), ("APSK".data))
    wgKeysGl := (("GPRIV".data), ("GPUB".data), ("GPSK".data))
    xrayReachable := true
    newUuid := "uuid-1".data
    remoteAdd := RemoteAdd.ok
    vlessConfigured := true }

/-- The healthy environment with a different fresh UUID. -/
def envStd2 : Env := { envStd with newUuid := "uuid-2".data }

/-- The healthy environment, but the remote add reports a rejection. -/
def envRejected : Env := { envStd with remoteAdd := RemoteAdd.rejected }

/-- A small healthy starting state. -/
def sampleState : VpnState :=
  { certs := [], wgAz := some azSample, wgGl := some glSample,
    xrayDb := [], xrayRemote := [], dirs := [] }

/- ### Supporting lemmas -/

theorem fsExists_fsRemove (fs : FS) (p : Str) : fsExists (fsRemove fs p) p = false := by
  simp only [fsExists, fsRemove, List.any_eq_false]
  intro e he
  have := List.of_mem_filter he
  simpa using this

/- ### Lemmas on names and the token grammar -/

theorem contains_iff_mem (s : Str) (c : Char) : s.contains c = true ↔ c ∈ s := by
  simp [List.contains]

theorem not_mem_of_contains_eq_false {s : Str} {c : Char} (h : s.contains c = false) :
    c ∉ s := by
  intro hm
  have := (contains_iff_mem s c).mpr hm
  rw [this] at h
  exact Bool.noConfusion h

theorem contains_eq_false_of_not_mem {s : Str} {c : Char} (h : c ∉ s) :
    s.contains c = false := by
  cases hcc : s.contains c
  · rfl
  · exact absurd ((contains_iff_mem s c).mp hcc) h

theorem goodSeg_lit {s : Str} (h : goodSeg (Seg.lit s) = true) : '$' ∉ s := by
  simp only [goodSeg, Bool.not_eq_true'] at h
  exact not_mem_of_contains_eq_false h

theorem goodEntry_parts {kv : Str × Str} (h : goodEntry kv = true) :
    validName kv.1 = true ∧ '$' ∉ kv.2 := by
  simp only [goodEntry, Bool.and_eq_true, Bool.not_eq_true'] at h
  exact ⟨h.1, not_mem_of_contains_eq_false h.2⟩

theorem nameStar_to_nameChar {c : Char} (h : nameStart c = true) : nameChar c = true := by
  simp only [nameStart, Bool.or_eq_true] at h
  simp only [nameChar, Bool.or_eq_true]
  tauto

theorem validName_all_nameChar {n : Str} (h : validName n = true) :
    ∀ c ∈ n, nameChar c = true := by
  match n with
  | [] => simp [validName] at h
  | c :: cs =>
    simp only [validName, Bool.and_eq_true, List.all_eq_true] at h
    intro x hx
    rcases List.mem_cons.mp hx with rfl | hx
    · exact nameStar_to_nameChar h.1
    · exact h.2 x hx

theorem nameChar_ne_dollar {c : Char} (h : nameChar c = true) : c ≠ '$' := by
  rintro rfl
  exact absurd h (by decide)

theorem nameChar_ne_rbrace {c : Char} (h : nameChar c = true) : c ≠ '}' := by
  rintro rfl
  exact absurd h (by decide)

theorem validName_no_dollar {n : Str} (h : validName n = true) : '$' ∉ n := by
  intro hm
  exact nameChar_ne_dollar (validName_all_nameChar h _ hm) rfl

/-- Equal-length name runs terminated by a brace cannot be prefixes of each
other unless the names coincide. -/
theorem nameBrace_not_prefix {k n : Str} (t : Str)
    (hk : ∀ c ∈ k, nameChar c = true) (hn : ∀ c ∈ n, nameChar c = true)
    (hne : k ≠ n) : ¬ (k ++ ['}']) <+: (n ++ '}' :: t) := by
  induction k generalizing n with
  | nil =>
    cases n with
    | nil => exact absurd rfl hne
    | cons b n' =>
      intro hp
      rcases List.cons_prefix_cons.mp hp with ⟨h1, -⟩
      exact nameChar_ne_rbrace (hn b (List.mem_cons_self _ _)) h1.symm
  | cons a k' ih =>
    cases n with
    | nil =>
      intro hp
      rcases List.cons_prefix_cons.mp hp with ⟨h1, -⟩
      exact nameChar_ne_rbrace (hk a (List.mem_cons_self _ _)) h1
    | cons b n' =>
      intro hp
      rcases List.cons_prefix_cons.mp hp with ⟨h1, h2⟩
      subst h1
      exact ih (fun c hc => hk c (List.mem_cons_of_mem _ hc))
        (fun c hc => hn c (List.mem_cons_of_mem _ hc))
        (fun hkn => hne (by rw [hkn])) h2

/- ### Lemmas on pyReplace -/

theorem pyReplace_nil (pat rep : Str) : pyReplace pat rep [] = [] := by
  simp only [pyReplace]

theorem pyReplace_cons_pos (pat rep : Str) (c : Char) (l : Str)
    (h1 : pat ≠ []) (h2 : pat.isPrefixOf (c :: l)) :
    pyReplace pat rep (c :: l) = rep ++ pyReplace pat rep ((c :: l).drop pat.length) := by
  simp only [pyReplace]
  rw [dif_pos ⟨h1, h2⟩]

theorem pyReplace_cons_neg (pat rep : Str) (c : Char) (l : Str)
    (h : ¬ pat.isPrefixOf (c :: l)) :
    pyReplace pat rep (c :: l) = c :: pyReplace pat rep l := by
  simp only [pyReplace]
  rw [dif_neg]
  rintro ⟨-, hp⟩
  exact h hp

/-- `str.replace` walks over a `$`-free chunk unchanged when the pattern
starts with `$`. -/
theorem pyReplace_skip (p' rep : Str) (x y : Str) (hx : '$' ∉ x) :
    pyReplace ('$' :: p') rep (x ++ y) = x ++ pyReplace ('$' :: p') rep y := by
  induction x with
  | nil => simp
  | cons a x ih =>
    have ha : a ≠ '$' := by
      rintro rfl
      exact hx (List.mem_cons_self _ _)
    have hnp : ¬ ('$' :: p').isPrefixOf (a :: (x ++ y)) := by
      intro hpre
      rw [List.isPrefixOf_iff_prefix] at hpre
      rcases List.cons_prefix_cons.mp hpre with ⟨h1, -⟩
      exact ha h1.symm
    rw [List.cons_append, pyReplace_cons_neg _ _ _ _ hnp,
      ih (fun hm => hx (List.mem_cons_of_mem _ hm))]
    simp

/-- `str.replace` substitutes a leading occurrence of the pattern and
continues after it, without rescanning the replacement. -/
theorem pyReplace_hit (k rep t : Str) :
    pyReplace (pyToken k) rep (pyToken k ++ t) = rep ++ pyReplace (pyToken k) rep t := by
  have hne : pyToken k ≠ [] := by simp [pyToken]
  have hpre : (pyToken k).isPrefixOf (pyToken k ++ t) := by
    rw [List.isPrefixOf_iff_prefix]
    exact List.prefix_append _ _
  have h := pyReplace_cons_pos (pyToken k) rep '$' ('{' :: ((k ++ ['}']) ++ t)) hne hpre
  have hd : ('$' :: ('{' :: ((k ++ ['}']) ++ t))).drop (pyToken k).length = t := by
    show (pyToken k ++ t).drop (pyToken k).length = t
    exact List.drop_left _ _
  rw [show pyToken k ++ t = '$' :: ('{' :: ((k ++ ['}']) ++ t)) from rfl, h, hd]

/-- A variable token for a different grammatical name is not matched by the
pattern `"${k}"`, so `str.replace` copies it unchanged. -/
theorem pyReplace_token_skip (k rep n t : Str) (hk : validName k = true)
    (hn : validName n = true) (hne : k ≠ n) :
    pyReplace (pyToken k) rep (pyToken n ++ t) = pyToken n ++ pyReplace (pyToken k) rep t := by
  have hshape : pyToken n ++ t = '$' :: ('{' :: (n ++ '}' :: t)) := by
    simp [pyToken]
  have hnp : ¬ (pyToken k).isPrefixOf ('$' :: ('{' :: (n ++ '}' :: t))) := by
    intro hpre
    rw [List.isPrefixOf_iff_prefix] at hpre
    simp only [pyToken] at hpre
    rcases List.cons_prefix_cons.mp hpre with ⟨-, hpre⟩
    rcases List.cons_prefix_cons.mp hpre with ⟨-, hpre⟩
    exact nameBrace_not_prefix t (validName_all_nameChar hk)
      (validName_all_nameChar hn) hne hpre
  rw [hshape, pyReplace_cons_neg _ _ _ _ hnp]
  have h2 : ¬ (pyToken k).isPrefixOf ('{' :: (n ++ '}' :: t)) := by
    intro hpre
    rw [List.isPrefixOf_iff_prefix] at hpre
    simp only [pyToken] at hpre
    rcases List.cons_prefix_cons.mp hpre with ⟨h1, -⟩
    simp at h1
  rw [pyReplace_cons_neg _ _ _ _ h2]
  have h3 : pyReplace (pyToken k) rep (n ++ '}' :: t)
      = n ++ pyReplace (pyToken k) rep ('}' :: t) := by
    exact pyReplace_skip _ _ _ _ (validName_no_dollar hn)
  have h4 : ¬ (pyToken k).isPrefixOf ('}' :: t) := by
    intro hpre
    rw [List.isPrefixOf_iff_prefix] at hpre
    simp only [pyToken] at hpre
    rcases List.cons_prefix_cons.mp hpre with ⟨h1, -⟩
    simp at h1
  rw [h3, pyReplace_cons_neg _ _ _ _ h4]
  simp [pyToken]

/- ### Lemmas on the render fold at segment level -/

theorem substOne_goodSeg {k v : Str} (hv : '$' ∉ v) {sg : Seg}
    (h : goodSeg sg = true) : goodSeg (substOne k v sg) = true := by
  cases sg with
  | lit s => exact h
  | var n =>
    simp only [substOne]
    by_cases hkn : n = k
    · rw [if_pos hkn]
      simp only [goodSeg, Bool.not_eq_true']
      exact contains_eq_false_of_not_mem hv
    · rw [if_neg hkn]
      exact h

/-- One `content.replace` pass of the `render` loop acts on template text as
the segment-level substitution `substOne`. -/
theorem pyReplace_segsText (k v : Str) (segs : List Seg) (hk : validName k = true)
    (hsegs : ∀ sg ∈ segs, goodSeg sg = true) :
    pyReplace (pyToken k) v (segsText segs) = segsText (segs.map (substOne k v)) := by
  induction segs with
  | nil => simp [segsText, pyReplace_nil]
  | cons sg rest ih =>
    have hrest : ∀ s ∈ rest, goodSeg s = true :=
      fun s hs => hsegs s (List.mem_cons_of_mem _ hs)
    cases sg with
    | lit s =>
      have hs : '$' ∉ s := goodSeg_lit (hsegs (Seg.lit s) (List.mem_cons_self _ _))
      have hshape : segsText (Seg.lit s :: rest) = s ++ segsText rest := by
        simp [segsText, segText]
      rw [hshape]
      rw [show pyToken k = '$' :: ('{' :: (k ++ ['}'])) from rfl]
      rw [pyReplace_skip _ _ _ _ hs]
      rw [show ('$' :: ('{' :: (k ++ ['}']))) = pyToken k from rfl, ih hrest]
      simp [segsText, segText, substOne]
    | var n =>
      have hn : validName n = true := hsegs (Seg.var n) (List.mem_cons_self _ _)
      have hshape : segsText (Seg.var n :: rest) = pyToken n ++ segsText rest := by
        simp [segsText, segText]
      rw [hshape]
      by_cases hkn : n = k
      · subst hkn
        rw [pyReplace_hit, ih hrest]
        simp [segsText, segText, substOne]
      · rw [pyReplace_token_skip _ _ _ _ hk hn (fun h => hkn h.symm), ih hrest]
        simp [segsText, segText, substOne, hkn]

/-- The whole `render` replacement fold acts on template text as the
segment-level substitution with first-match lookup. -/
theorem renderFold_segsText (vmap : List (Str × Str)) (segs : List Seg)
    (hm : ∀ kv ∈ vmap, goodEntry kv = true)
    (hsegs : ∀ sg ∈ segs, goodSeg sg = true) :
    vmap.foldl (fun acc kv => pyReplace (pyToken kv.1) kv.2 acc) (segsText segs)
      = segsText (segs.map (substSeg vmap)) := by
  induction vmap generalizing segs with
  | nil =>
    simp only [List.foldl_nil]
    have h0 : segs.map (substSeg []) = segs := by
      conv_rhs => rw [← List.map_id segs]
      refine List.map_congr_left ?_
      intro sg _
      cases sg with
      | lit s => rfl
      | var n => rfl
    rw [h0]
  | cons kv rest ih =>
    have hk : validName kv.1 = true := (goodEntry_parts (hm kv (List.mem_cons_self _ _))).1
    have hv : '$' ∉ kv.2 := (goodEntry_parts (hm kv (List.mem_cons_self _ _))).2
    simp only [List.foldl_cons]
    rw [pyReplace_segsText kv.1 kv.2 segs hk hsegs]
    rw [ih (segs.map (substOne kv.1 kv.2))
      (fun e he => hm e (List.mem_cons_of_mem _ he))
      (fun sg hsg => by
        rcases List.mem_map.mp hsg with ⟨sg', hsg', rfl⟩
        exact substOne_goodSeg hv (hsegs sg' hsg'))]
    congr 1
    rw [List.map_map]
    refine List.map_congr_left ?_
    intro sg _
    cases sg with
    | lit s => rfl
    | var n =>
      by_cases hkn : n = kv.1
      · simp [substOne, substSeg, lookupVar, hkn]
      · simp [substOne, substSeg, lookupVar, hkn, Ne.symm hkn]

/- ### Lemmas on the cleanup regex pass -/

theorem tokenLen_not_dollar {c : Char} (l : Str) (h : c ≠ '$') :
    tokenLen (c :: l) = 0 := by
  unfold tokenLen
  split
  · rename_i heq
    rw [List.cons.injEq] at heq
    exact absurd heq.1 h
  · rfl

theorem reSubVars_nil : reSubVars [] = [] := by
  simp only [reSubVars]

theorem reSubVars_cons_zero (c : Char) (l : Str) (h : tokenLen (c :: l) = 0) :
    reSubVars (c :: l) = c :: reSubVars l := by
  simp only [reSubVars]
  rw [dif_pos h]

theorem reSubVars_cons_tok (c : Char) (l : Str) (h : tokenLen (c :: l) ≠ 0) :
    reSubVars (c :: l) = reSubVars ((c :: l).drop (tokenLen (c :: l))) := by
  simp only [reSubVars]
  rw [dif_neg h]

/-- The cleanup pass copies a `$`-free chunk unchanged. -/
theorem reSubVars_skip (x y : Str) (hx : '$' ∉ x) :
    reSubVars (x ++ y) = x ++ reSubVars y := by
  induction x with
  | nil => simp
  | cons a x ih =>
    have ha : a ≠ '$' := by
      rintro rfl
      exact hx (List.mem_cons_self _ _)
    rw [List.cons_append, reSubVars_cons_zero _ _ (tokenLen_not_dollar _ ha),
      ih (fun hm => hx (List.mem_cons_of_mem _ hm))]
    simp

/-- The cleanup pass recognises a grammatical variable token at the head and
deletes exactly it. -/
theorem reSubVars_token (n t : Str) (hn : validName n = true) :
    reSubVars (pyToken n ++ t) = reSubVars t := by
  obtain ⟨c, cs, rfl⟩ : ∃ c cs, n = c :: cs := by
    cases n with
    | nil => simp [validName] at hn
    | cons c cs => exact ⟨c, cs, rfl⟩
  have hstart : nameStart c = true := by
    simp only [validName, Bool.and_eq_true] at hn
    exact hn.1
  have hcs : ∀ x ∈ cs, nameChar x = true := by
    simp only [validName, Bool.and_eq_true, List.all_eq_true] at hn
    exact hn.2
  have hshape : pyToken (c :: cs) ++ t = '$' :: '{' :: c :: (cs ++ '}' :: t) := by
    simp [pyToken]
  have hbrace : nameChar '}' = false := by decide
  have hdw : (cs ++ '}' :: t).dropWhile nameChar = '}' :: t := by
    rw [List.dropWhile_append_of_pos hcs, List.dropWhile_cons, hbrace]
    simp
  have htw : (cs ++ '}' :: t).takeWhile nameChar = cs := by
    rw [List.takeWhile_append_of_pos hcs, List.takeWhile_cons, hbrace]
    simp
  have hred : tokenLen ('$' :: '{' :: c :: (cs ++ '}' :: t))
      = if nameStart c then
          match (cs ++ '}' :: t).dropWhile nameChar with
          | '}' :: _ => ((cs ++ '}' :: t).takeWhile nameChar).length + 4
          | _ => 0
        else 0 := rfl
  have hlen : tokenLen ('$' :: '{' :: c :: (cs ++ '}' :: t)) = cs.length + 4 := by
    rw [hred, if_pos hstart, hdw]
    show ((cs ++ '}' :: t).takeWhile nameChar).length + 4 = cs.length + 4
    rw [htw]
  have hne : tokenLen ('$' :: '{' :: c :: (cs ++ '}' :: t)) ≠ 0 := by
    rw [hlen]
    omega
  rw [hshape, reSubVars_cons_tok _ _ hne, hlen]
  have hdrop : ('$' :: '{' :: c :: (cs ++ '}' :: t)).drop (cs.length + 4) = t := by
    have heq : '$' :: '{' :: c :: (cs ++ '}' :: t)
        = ('$' :: '{' :: c :: (cs ++ ['}'])) ++ t := by simp
    have hl : ('$' :: '{' :: c :: (cs ++ ['}'])).length = cs.length + 4 := by
      simp
    rw [heq, ← hl]
    exact List.drop_left _ _
  rw [hdrop]

/-- The cleanup pass maps substituted template text to the final rendering:
literal chunks survive, leftover variable tokens vanish. -/
theorem reSubVars_segsText (segs : List Seg)
    (hsegs : ∀ sg ∈ segs, goodSeg sg = true) :
    reSubVars (segsText segs)
      = (segs.map (fun sg => match sg with
          | Seg.lit s => s
          | Seg.var _ => [])).flatten := by
  induction segs with
  | nil => simp [segsText, reSubVars_nil]
  | cons sg rest ih =>
    have hrest : ∀ s ∈ rest, goodSeg s = true :=
      fun s hs => hsegs s (List.mem_cons_of_mem _ hs)
    cases sg with
    | lit s =>
      have hs : '$' ∉ s := goodSeg_lit (hsegs (Seg.lit s) (List.mem_cons_self _ _))
      have hshape : segsText (Seg.lit s :: rest) = s ++ segsText rest := by
        simp [segsText, segText]
      rw [hshape, reSubVars_skip _ _ hs, ih hrest]
      simp
    | var n =>
      have hn : validName n = true := hsegs (Seg.var n) (List.mem_cons_self _ _)
      have hshape : segsText (Seg.var n :: rest) = pyToken n ++ segsText rest := by
        simp [segsText, segText]
      rw [hshape, reSubVars_token _ _ hn, ih hrest]
      simp

theorem ensureDir_xrayRemote (s : VpnState) (n : Str) :
    (ensureDir s n).xrayRemote = s.xrayRemote := by
  unfold ensureDir
  split <;> rfl

theorem dirAddFile_xrayRemote (s : VpnState) (n f : Str) :
    (dirAddFile s n f).xrayRemote = s.xrayRemote := rfl

theorem lookupVar_mem {n v : Str} {vmap : List (Str × Str)}
    (h : lookupVar n vmap = some v) : ∃ kv ∈ vmap, kv.1 = n ∧ kv.2 = v := by
  induction vmap with
  | nil => simp [lookupVar] at h
  | cons kv rest ih =>
    by_cases hkn : kv.1 = n
    · rw [lookupVar, if_pos hkn] at h
      exact ⟨kv, List.mem_cons_self _ _, hkn, Option.some.injEq _ _ ▸ h.symm ▸ rfl⟩
    · rw [lookupVar, if_neg hkn] at h
      rcases ih h with ⟨kv', hmem, hn, hv⟩
      exact ⟨kv', List.mem_cons_of_mem _ hmem, hn, hv⟩

/- ### Lemmas on WireGuard IP allocation -/

theorem mkIp_ne_nil (base : Str) (i : Nat) : mkIp base i ≠ [] := by
  simp [mkIp]

theorem findFreeIpGo_eq_nil_iff (base : Str) (existing : List Str) :
    ∀ fuel start, findFreeIpGo base existing fuel start = []
      ↔ ∀ i, start ≤ i → i < start + fuel → mkIp base i ∈ existing := by
  intro fuel
  induction fuel with
  | zero =>
    intro start
    constructor
    · intro _ i h1 h2
      omega
    · intro _
      rfl
  | succ fuel ih =>
    intro start
    by_cases hmem : mkIp base start ∈ existing
    · rw [findFreeIpGo, if_pos hmem, ih (start + 1)]
      constructor
      · intro h i h1 h2
        rcases eq_or_lt_of_le h1 with rfl | hlt
        · exact hmem
        · exact h i (by omega) (by omega)
      · intro h i h1 h2
        exact h i (by omega) (by omega)
    · rw [findFreeIpGo, if_neg hmem]
      constructor
      · intro h
        exact absurd h (mkIp_ne_nil _ _)
      · intro h
        exact absurd (h start (le_refl _) (by omega)) hmem

theorem findFreeIpGo_ok (base : Str) (existing : List Str) :
    ∀ fuel start ip, findFreeIpGo base existing fuel start = ip → ip ≠ [] →
      ∃ i, start ≤ i ∧ i < start + fuel ∧ ip = mkIp base i ∧ mkIp base i ∉ existing
        ∧ ∀ j, start ≤ j → j < i → mkIp base j ∈ existing := by
  intro fuel
  induction fuel with
  | zero =>
    intro start ip h hne
    exact absurd h.symm hne
  | succ fuel ih =>
    intro start ip h hne
    by_cases hmem : mkIp base start ∈ existing
    · rw [findFreeIpGo, if_pos hmem] at h
      rcases ih (start + 1) ip h hne with ⟨i, h1, h2, h3, h4, h5⟩
      refine ⟨i, by omega, by omega, h3, h4, ?_⟩
      intro j hj1 hj2
      rcases eq_or_lt_of_le hj1 with rfl | hlt
      · exact hmem
      · exact h5 j (by omega) hj2
    · rw [findFreeIpGo, if_neg hmem] at h
      exact ⟨start, le_refl _, by omega, h.symm, hmem, fun j hj1 hj2 => by omega⟩

/- ### Lemmas on readlines and the peer-table surgery -/

theorem pyReadlines_nil : pyReadlines [] = [] := by
  simp only [pyReadlines]

theorem pyReadlines_cons_full (c : Char) (rest : Str)
    (h : ((c :: rest).takeWhile (fun x => !(x == '\n'))).length = (c :: rest).length) :
    pyReadlines (c :: rest) = [c :: rest] := by
  simp only [pyReadlines]
  rw [dif_pos h]

theorem pyReadlines_cons_split (c : Char) (rest : Str)
    (h : ¬ ((c :: rest).takeWhile (fun x => !(x == '\n'))).length = (c :: rest).length) :
    pyReadlines (c :: rest)
      = ((c :: rest).take (((c :: rest).takeWhile (fun x => !(x == '\n'))).length + 1))
        :: pyReadlines ((c :: rest).drop (((c :: rest).takeWhile (fun x => !(x == '\n'))).length + 1)) := by
  conv_lhs => simp only [pyReadlines]
  rw [dif_neg h]

theorem pyReadlines_flatten_bounded :
    ∀ n (s : Str), s.length ≤ n → (pyReadlines s).flatten = s := by
  intro n
  induction n with
  | zero =>
    intro s hs
    have : s = [] := List.length_eq_zero.mp (Nat.le_zero.mp hs)
    rw [this, pyReadlines_nil]
    rfl
  | succ n ih =>
    intro s hs
    cases s with
    | nil => rw [pyReadlines_nil]; rfl
    | cons c rest =>
      by_cases h : ((c :: rest).takeWhile (fun x => !(x == '\n'))).length = (c :: rest).length
      · rw [pyReadlines_cons_full c rest h]
        simp
      · rw [pyReadlines_cons_split c rest h]
        rw [List.flatten_cons]
        rw [ih _ (by simp only [List.length_drop, List.length_cons] at *; omega)]
        exact List.take_append_drop _ _

theorem pyReadlines_flatten (s : Str) : (pyReadlines s).flatten = s :=
  pyReadlines_flatten_bounded s.length s (le_refl _)

theorem removeClientBlocks_nil (tag : Str) : removeClientBlocks tag [] = ([], false) := by
  simp only [removeClientBlocks]

theorem removeClientBlocks_cons_neg (tag l : Str) (rest : List Str)
    (h : ¬ pyStrip l = tag) :
    removeClientBlocks tag (l :: rest)
      = ((l :: (removeClientBlocks tag rest).1), (removeClientBlocks tag rest).2) := by
  simp only [removeClientBlocks]
  rw [if_neg h]

theorem removeClientBlocks_cons_pos (tag l : Str) (rest : List Str)
    (h : pyStrip l = tag) :
    removeClientBlocks tag (l :: rest)
      = ((removeClientBlocks tag
          (rest.drop ((rest.takeWhile (fun x => !(pyStrip x == []))).length + 1))).1,
         true) := by
  conv_lhs => simp only [removeClientBlocks]
  rw [if_pos h]

theorem removeClientBlocks_not_found (tag : Str) (ls : List Str)
    (h : ∀ l ∈ ls, pyStrip l ≠ tag) : removeClientBlocks tag ls = (ls, false) := by
  induction ls with
  | nil => exact removeClientBlocks_nil tag
  | cons l rest ih =>
    rw [removeClientBlocks_cons_neg tag l rest (h l (List.mem_cons_self _ _)),
      ih (fun x hx => h x (List.mem_cons_of_mem _ hx))]

theorem stripTrailingBlanks_id (ls : List Str)
    (h : ∀ l, ls.getLast? = some l → (pyStrip l == []) = false) :
    stripTrailingBlanks ls = ls := by
  rcases List.eq_nil_or_concat ls with rfl | ⟨ys, y, rfl⟩
  · rfl
  · rw [List.concat_eq_append] at h ⊢
    unfold stripTrailingBlanks
    have hy := h y (by rw [List.getLast?_concat])
    have hrev : (ys ++ [y]).reverse = y :: ys.reverse := by simp
    rw [hrev, List.dropWhile_cons, hy]
    simp

theorem tagFound_all {c : Str} {name : Str} (h : tagFound (some c) name = false) :
    ∀ l ∈ pyReadlines c, pyStrip l ≠ tagLine name := by
  simp only [tagFound, List.any_eq_false] at h
  intro l hl heq
  have := h l hl
  rw [heq] at this
  simp at this

theorem modifyWgFile_not_found (file : Option Str) (name : Str)
    (h : tagFound file name = false) :
    modifyWgFile file name none
      = (file.map (fun c => (stripTrailingBlanks (pyReadlines c)).flatten), false) := by
  cases file with
  | none => rfl
  | some c =>
    simp only [modifyWgFile, modifyWgConfig]
    rw [removeClientBlocks_not_found _ _ (tagFound_all h)]
    rfl

/- ### Lemmas on pyStrip -/

theorem isDigit_not_pySpace {c : Char} (h : c.isDigit = true) : pySpace c = false := by
  cases hps : pySpace c
  · rfl
  · exfalso
    simp only [pySpace, Bool.or_eq_true, decide_eq_true_eq] at hps
    rcases hps with ((((rfl | rfl) | rfl) | rfl) | rfl) | rfl <;> exact absurd h (by decide)

theorem pyStrip_head {c : Char} (t : Str) (hc : pySpace c = false) :
    ∃ r, pyStrip (c :: t) = c :: r := by
  have h1 : (c :: t).dropWhile pySpace = c :: t := by
    rw [List.dropWhile_cons, hc]
    simp
  have hrev : (c :: t).reverse = t.reverse ++ [c] := by simp
  unfold pyStrip
  rw [h1, hrev, List.dropWhile_append]
  by_cases he : (t.reverse.dropWhile pySpace).isEmpty
  · rw [if_pos he]
    refine ⟨[], ?_⟩
    rw [show ([c] : Str).dropWhile pySpace = [c] from by rw [List.dropWhile_cons, hc]; simp]
    rfl
  · rw [if_neg he]
    exact ⟨(t.reverse.dropWhile pySpace).reverse, by simp⟩

/-- Stripping keeps a string intact when it neither starts nor ends with
whitespace. -/
theorem pyStrip_id {x : Str} (hh : ∀ c, x.head? = some c → pySpace c = false)
    (hl : ∀ c, x.getLast? = some c → pySpace c = false) : pyStrip x = x := by
  have h1 : x.dropWhile pySpace = x := by
    cases x with
    | nil => rfl
    | cons c t =>
      rw [List.dropWhile_cons, hh c rfl]
      simp
  unfold pyStrip
  rw [h1]
  rcases List.eq_nil_or_concat x with rfl | ⟨ys, y, rfl⟩
  · rfl
  · rw [List.concat_eq_append] at hl ⊢
    have hy : pySpace y = false := hl y (by rw [List.getLast?_concat])
    have hr : (ys ++ [y]).reverse = y :: ys.reverse := by simp
    rw [hr, List.dropWhile_cons, hy]
    simp

/-- Stripping a chunk that starts and ends with non-whitespace keeps that
chunk as a prefix whatever follows it. -/
theorem pyStrip_append_stem {a : Str} (b : Str) (c₀ : Char) (t₀ : Str)
    (ha : a = c₀ :: t₀) (hc : pySpace c₀ = false) (y : Str) (d : Char)
    (hconc : a = y ++ [d]) (hd : pySpace d = false) :
    ∃ r, pyStrip (a ++ b) = a ++ r := by
  have h1 : (a ++ b).dropWhile pySpace = a ++ b := by
    rw [ha, List.cons_append, List.dropWhile_cons, hc]
    simp
  unfold pyStrip
  rw [h1]
  have hrev : (a ++ b).reverse = b.reverse ++ (d :: y.reverse) := by
    rw [hconc]
    simp
  rw [hrev, List.dropWhile_append]
  by_cases he : (b.reverse.dropWhile pySpace).isEmpty
  · rw [if_pos he, List.dropWhile_cons, hd]
    refine ⟨[], ?_⟩
    rw [hconc]
    simp
  · rw [if_neg he]
    refine ⟨(b.reverse.dropWhile pySpace).reverse, ?_⟩
    rw [hconc]
    simp

theorem pyStrip_append_newline (x : Str) : pyStrip (x ++ ['\n']) = pyStrip x := by
  unfold pyStrip
  rw [List.dropWhile_append]
  by_cases he : (x.dropWhile pySpace).isEmpty
  · rw [if_pos he]
    have h2 : (['\n'] : Str).dropWhile pySpace = [] := by decide
    have hx : x.dropWhile pySpace = [] := by
      cases hxx : x.dropWhile pySpace
      · rfl
      · rw [hxx] at he
        exact Bool.noConfusion he
    rw [h2, hx]
  · rw [if_neg he]
    have h3 : (x.dropWhile pySpace ++ ['\n']).reverse
        = '\n' :: (x.dropWhile pySpace).reverse := by simp
    rw [h3, List.dropWhile_cons]
    have h4 : pySpace '\n' = true := by decide
    rw [h4]
    simp

/- ### Lemmas on readlines fragments -/

theorem dropWhile_head_false {α : Type} (p : α → Bool) :
    ∀ {l : List α} {d : α} {y : List α}, l.dropWhile p = d :: y → p d = false := by
  intro l
  induction l with
  | nil =>
    intro d y h
    exact absurd h (by simp)
  | cons c t ih =>
    intro d y h
    rw [List.dropWhile_cons] at h
    by_cases hc : p c = true
    · rw [if_pos hc] at h
      exact ih h
    · rw [if_neg hc] at h
      cases h
      rw [Bool.not_eq_true] at hc
      exact hc

/-- When `takeWhile (· ≠ '\n')` is not the whole string, the string splits
as that newline-free prefix, a newline, and a remainder. -/
theorem newline_split (s : Str)
    (h : ¬ (s.takeWhile (fun x => !(x == '\n'))).length = s.length) :
    ∃ y, s = s.takeWhile (fun x => !(x == '\n')) ++ '\n' :: y
      ∧ '\n' ∉ s.takeWhile (fun x => !(x == '\n')) := by
  have happ := List.takeWhile_append_dropWhile
    (p := fun x : Char => !(x == '\n')) (l := s)
  rcases hdw : s.dropWhile (fun x => !(x == '\n')) with _ | ⟨d, y⟩
  · exfalso
    rw [hdw, List.append_nil] at happ
    exact h (by rw [happ])
  · have hd := dropWhile_head_false _ hdw
    have hd' : d = '\n' := by simpa using hd
    subst hd'
    refine ⟨y, ?_, ?_⟩
    · conv_lhs => rw [← happ, hdw]
    · intro hmem
      have := List.mem_takeWhile_imp hmem
      simp at this

theorem take_newline_prefix (tw y : Str) :
    (tw ++ '\n' :: y).take (tw.length + 1) = tw ++ ['\n'] := by
  rw [show tw ++ '\n' :: y = (tw ++ ['\n']) ++ y from by simp]
  exact List.take_left' (by simp)

theorem drop_newline_suffix (tw y : Str) :
    (tw ++ '\n' :: y).drop (tw.length + 1) = y := by
  rw [show tw ++ '\n' :: y = (tw ++ ['\n']) ++ y from by simp]
  rw [show tw.length + 1 = (tw ++ ['\n']).length from by simp]
  exact List.drop_left _ _

theorem pyReadlines_ne_nil_split (s : Str) (hne : s ≠ [])
    (h : ¬ (s.takeWhile (fun x => !(x == '\n'))).length = s.length) :
    pyReadlines s
      = (s.take ((s.takeWhile (fun x => !(x == '\n'))).length + 1))
        :: pyReadlines (s.drop ((s.takeWhile (fun x => !(x == '\n'))).length + 1)) := by
  cases s with
  | nil => exact absurd rfl hne
  | cons c rest => exact pyReadlines_cons_split c rest h

/-- `readlines` peels one newline-terminated line off the front. -/
theorem pyReadlines_newline (x y : Str) (hx : '\n' ∉ x) :
    pyReadlines (x ++ '\n' :: y) = (x ++ ['\n']) :: pyReadlines y := by
  have htw : (x ++ '\n' :: y).takeWhile (fun c => !(c == '\n')) = x := by
    rw [List.takeWhile_append_of_pos (fun a ha => by
      simp only [Bool.not_eq_true', beq_eq_false_iff_ne, ne_eq]
      intro hq
      exact hx (hq ▸ ha))]
    rw [List.takeWhile_cons]
    simp
  have hlen : ¬ ((x ++ '\n' :: y).takeWhile (fun c => !(c == '\n'))).length
      = (x ++ '\n' :: y).length := by
    rw [htw]
    simp only [List.length_append, List.length_cons]
    omega
  rw [pyReadlines_ne_nil_split (x ++ '\n' :: y) (by simp) hlen, htw]
  have hgroup : x ++ '\n' :: y = (x ++ ['\n']) ++ y := by simp
  have htake : (x ++ '\n' :: y).take (x.length + 1) = x ++ ['\n'] := by
    rw [hgroup]
    exact List.take_left' (by simp)
  have hdrop : (x ++ '\n' :: y).drop (x.length + 1) = y := by
    rw [hgroup]
    rw [show x.length + 1 = (x ++ ['\n']).length from by simp]
    exact List.drop_left _ _
  rw [htake, hdrop]

theorem goodFrag_parts {l : Str} (h : goodFrag l = true) :
    l ≠ [] ∧ '\n' ∉ l.dropLast := by
  simp only [goodFrag, Bool.and_eq_true, Bool.not_eq_true'] at h
  refine ⟨by simpa using h.1, not_mem_of_contains_eq_false h.2⟩

theorem goodFrag_newline_decomp {l : Str} (hg : goodFrag l = true) (hnl : '\n' ∈ l) :
    ∃ core, l = core ++ ['\n'] ∧ '\n' ∉ core := by
  rcases goodFrag_parts hg with ⟨hne, hdl⟩
  have hsplit := List.dropLast_append_getLast hne
  have hlast : l.getLast hne = '\n' := by
    by_contra hlast
    rw [← hsplit] at hnl
    rcases List.mem_append.mp hnl with hm | hm
    · exact hdl hm
    · exact hlast (List.mem_singleton.mp hm).symm
  exact ⟨l.dropLast, by rw [← hlast, hsplit], hdl⟩

theorem chainOk_destruct {l : Str} {rest : List Str} (h : chainOk (l :: rest) = true) :
    goodFrag l = true ∧ (rest ≠ [] → l.getLast? = some '\n') ∧ chainOk rest = true := by
  cases rest with
  | nil =>
    refine ⟨by simpa [chainOk] using h, fun hc => absurd rfl hc, by simp [chainOk]⟩
  | cons r rs =>
    simp only [chainOk, Bool.and_eq_true, beq_iff_eq] at h
    exact ⟨h.1.1, fun _ => h.1.2, h.2⟩

theorem chainOk_build {l : Str} {rest : List Str} (h1 : goodFrag l = true)
    (h2 : rest ≠ [] → l.getLast? = some '\n') (h3 : chainOk rest = true) :
    chainOk (l :: rest) = true := by
  cases rest with
  | nil => simpa [chainOk] using h1
  | cons r rs =>
    simp only [chainOk, Bool.and_eq_true, beq_iff_eq]
    exact ⟨⟨h1, h2 (by simp)⟩, h3⟩

theorem chainOk_sublist : ∀ {l' l : List Str}, List.Sublist l' l →
    chainOk l = true → chainOk l' = true := by
  intro l' l hsub
  induction hsub with
  | slnil => exact fun h => h
  | cons a _ ih =>
    intro h
    exact ih (chainOk_destruct h).2.2
  | cons₂ a hsub ih =>
    intro h
    rcases chainOk_destruct h with ⟨h1, h2, h3⟩
    refine chainOk_build h1 (fun hne => h2 ?_) (ih h3)
    intro hnil
    subst hnil
    exact hne (List.sublist_nil.mp hsub)

theorem chainOk_readlines_bounded :
    ∀ n (s : Str), s.length ≤ n → chainOk (pyReadlines s) = true := by
  intro n
  induction n with
  | zero =>
    intro s hs
    have : s = [] := List.length_eq_zero.mp (Nat.le_zero.mp hs)
    rw [this, pyReadlines_nil]
    rfl
  | succ n ih =>
    intro s hs
    cases s with
    | nil => rw [pyReadlines_nil]; rfl
    | cons c rest =>
      by_cases h : (((c :: rest).takeWhile (fun x => !(x == '\n'))).length
          = (c :: rest).length)
      · rw [pyReadlines_cons_full c rest h]
        have heq : (c :: rest).takeWhile (fun x => !(x == '\n')) = c :: rest :=
          (List.takeWhile_prefix _).eq_of_length h
        have hnomem : '\n' ∉ (c :: rest) := by
          intro hm
          have := List.mem_takeWhile_imp (heq ▸ hm)
          simp at this
        refine chainOk_build ?_ (fun hc => absurd rfl hc) (by rfl)
        simp only [goodFrag, Bool.and_eq_true, Bool.not_eq_true']
        refine ⟨by simp, contains_eq_false_of_not_mem ?_⟩
        intro hm
        exact hnomem (List.dropLast_subset _ hm)
      · rw [pyReadlines_cons_split c rest h]
        set tw := (c :: rest).takeWhile (fun x => !(x == '\n')) with htw
        obtain ⟨y, hdec, hnx⟩ := newline_split (c :: rest) h
        rw [← htw] at hdec hnx
        rw [hdec, take_newline_prefix, drop_newline_suffix]
        have hylen : y.length ≤ n := by
          have := congrArg List.length hdec
          simp only [List.length_append, List.length_cons] at this
          simp only [List.length_cons] at hs
          omega
        refine chainOk_build ?_ (fun _ => by rw [List.getLast?_concat]) (ih y hylen)
        simp only [goodFrag, Bool.and_eq_true, Bool.not_eq_true']
        refine ⟨by simp, contains_eq_false_of_not_mem ?_⟩
        rw [List.dropLast_concat]
        exact hnx

theorem chainOk_readlines (s : Str) : chainOk (pyReadlines s) = true :=
  chainOk_readlines_bounded s.length s (le_refl _)

theorem pyReadlines_flatten_id :
    ∀ (ls : List Str), chainOk ls = true → pyReadlines ls.flatten = ls := by
  intro ls
  induction ls with
  | nil =>
    intro _
    exact pyReadlines_nil
  | cons l rest ih =>
    intro h
    rcases chainOk_destruct h with ⟨h1, h2, h3⟩
    cases rest with
    | nil =>
      rw [show ((l :: []) : List Str).flatten = l from by simp]
      by_cases hnl : '\n' ∈ l
      · obtain ⟨core, hcore, hnc⟩ := goodFrag_newline_decomp h1 hnl
        rw [hcore, show core ++ ['\n'] = core ++ '\n' :: ([] : Str) from rfl,
          pyReadlines_newline core [] hnc, pyReadlines_nil]
      · rcases goodFrag_parts h1 with ⟨hne, -⟩
        have htw : l.takeWhile (fun x => !(x == '\n')) = l := by
          rw [List.takeWhile_eq_self_iff]
          intro a ha
          simp only [Bool.not_eq_true', beq_eq_false_iff_ne, ne_eq]
          intro hq
          exact hnl (hq ▸ ha)
        cases l with
        | nil => exact absurd rfl hne
        | cons c t =>
          exact pyReadlines_cons_full c t (by rw [htw])
    | cons r rs =>
      have hterm : l.getLast? = some '\n' := h2 (by simp)
      rcases List.eq_nil_or_concat l with rfl | ⟨core, y, hconc⟩
      · simp at hterm
      · rw [List.concat_eq_append] at hconc
        subst hconc
        have hy : y = '\n' := by
          rw [List.getLast?_concat] at hterm
          exact Option.some.inj hterm
        subst hy
        have hnc : '\n' ∉ core := by
          rcases goodFrag_parts h1 with ⟨-, hdl⟩
          rwa [List.dropLast_concat] at hdl
        rw [show ((core ++ ['\n']) :: r :: rs).flatten
            = core ++ '\n' :: (r :: rs).flatten from by simp,
          pyReadlines_newline core _ hnc, ih h3]

/-- Counting tag lines of a written-back file: newline-terminated fragments
followed by a framed block contribute their counts independently. -/
theorem readlines_count_append (tag : Str) (htag : tag ≠ []) :
    ∀ (ls : List Str), chainOk ls = true → ∀ b : Str,
      ((pyReadlines (ls.flatten ++ '\n' :: b)).filter (fun l => pyStrip l == tag)).length
        = (ls.filter (fun l => pyStrip l == tag)).length
          + ((pyReadlines b).filter (fun l => pyStrip l == tag)).length := by
  have hblank : ((pyStrip ['\n'] == tag)) = false := by
    have h0 : pyStrip ['\n'] = [] := by decide
    rw [h0, beq_eq_false_iff_ne]
    exact fun h => htag h.symm
  intro ls
  induction ls with
  | nil =>
    intro _ b
    rw [show (([] : List Str).flatten ++ '\n' :: b : Str) = [] ++ '\n' :: b from rfl,
      pyReadlines_newline [] b (by simp)]
    simp only [List.nil_append, List.filter_cons, hblank]
    simp
  | cons l rest ih =>
    intro h b
    rcases chainOk_destruct h with ⟨h1, h2, h3⟩
    cases rest with
    | nil =>
      rw [show ((l :: []) : List Str).flatten = l from by simp]
      by_cases hnl : '\n' ∈ l
      · obtain ⟨core, hcore, hnc⟩ := goodFrag_newline_decomp h1 hnl
        subst hcore
        rw [show (core ++ ['\n']) ++ '\n' :: b = core ++ '\n' :: ('\n' :: b) from by simp,
          pyReadlines_newline core _ hnc,
          show ('\n' :: b : Str) = [] ++ '\n' :: b from rfl,
          pyReadlines_newline [] b (by simp)]
        simp only [List.nil_append, List.filter_cons, hblank]
        by_cases hp : (pyStrip (core ++ ['\n']) == tag) = true <;> simp [hp] <;> omega
      · rw [pyReadlines_newline l b hnl]
        simp only [List.filter_cons, pyStrip_append_newline]
        by_cases hp : (pyStrip l == tag) = true <;> simp [hp] <;> omega
    | cons r rs =>
      have hterm : l.getLast? = some '\n' := h2 (by simp)
      rcases List.eq_nil_or_concat l with rfl | ⟨core, y, hconc⟩
      · simp at hterm
      · rw [List.concat_eq_append] at hconc
        subst hconc
        have hy : y = '\n' := by
          rw [List.getLast?_concat] at hterm
          exact Option.some.inj hterm
        subst hy
        have hnc : '\n' ∉ core := by
          rcases goodFrag_parts h1 with ⟨-, hdl⟩
          rwa [List.dropLast_concat] at hdl
        rw [show ((core ++ ['\n']) :: r :: rs).flatten ++ '\n' :: b
            = core ++ '\n' :: ((r :: rs).flatten ++ '\n' :: b) from by simp,
          pyReadlines_newline core _ hnc]
        have hstep : ∀ (x : Str) (xs : List Str),
            ((x :: xs).filter (fun l => pyStrip l == tag)).length
              = (if (pyStrip x == tag) = true then 1 else 0)
                + (xs.filter (fun l => pyStrip l == tag)).length := by
          intro x xs
          rw [List.filter_cons]
          by_cases hp : (pyStrip x == tag) = true <;> simp [hp] <;> omega
        rw [hstep, hstep, ih h3 b]
        omega

/- ### Sublist and kept-lines properties of the removal pass -/

theorem removeClientBlocks_sublist_go (tag : Str) :
    ∀ (n : Nat) (ls : List Str), ls.length ≤ n →
      List.Sublist (removeClientBlocks tag ls).1 ls := by
  intro n
  induction n with
  | zero =>
    intro ls h
    have hnil : ls = [] := List.length_eq_zero.mp (Nat.le_zero.mp h)
    subst hnil
    rw [removeClientBlocks_nil]
  | succ n ih =>
    intro ls h
    cases ls with
    | nil =>
      rw [removeClientBlocks_nil]
    | cons l rest =>
      by_cases hl : pyStrip l = tag
      · rw [removeClientBlocks_cons_pos tag l rest hl]
        have hd : (rest.drop
            ((rest.takeWhile (fun x => !(pyStrip x == []))).length + 1)).length ≤ n := by
          simp only [List.length_drop]
          simp only [List.length_cons] at h
          omega
        exact ((ih _ hd).trans (List.drop_sublist _ _)).trans
          (List.Sublist.cons l (List.Sublist.refl rest))
      · rw [removeClientBlocks_cons_neg tag l rest hl]
        exact List.Sublist.cons₂ l
          (ih rest (by simp only [List.length_cons] at h; omega))

theorem removeClientBlocks_sublist (tag : Str) (ls : List Str) :
    List.Sublist (removeClientBlocks tag ls).1 ls :=
  removeClientBlocks_sublist_go tag ls.length ls (le_refl _)

theorem removeClientBlocks_no_tag_go (tag : Str) :
    ∀ (n : Nat) (ls : List Str), ls.length ≤ n →
      ∀ l ∈ (removeClientBlocks tag ls).1, pyStrip l ≠ tag := by
  intro n
  induction n with
  | zero =>
    intro ls h
    have hnil : ls = [] := List.length_eq_zero.mp (Nat.le_zero.mp h)
    subst hnil
    rw [removeClientBlocks_nil]
    intro l hl
    simp at hl
  | succ n ih =>
    intro ls h
    cases ls with
    | nil =>
      rw [removeClientBlocks_nil]
      intro l hl
      simp at hl
    | cons l rest =>
      by_cases hl : pyStrip l = tag
      · rw [removeClientBlocks_cons_pos tag l rest hl]
        intro x hx
        exact ih _
          (by simp only [List.length_drop]; simp only [List.length_cons] at h; omega) x hx
      · rw [removeClientBlocks_cons_neg tag l rest hl]
        intro x hx
        rcases List.mem_cons.mp hx with rfl | hx
        · exact hl
        · exact ih rest (by simp only [List.length_cons] at h; omega) x hx

theorem removeClientBlocks_no_tag (tag : Str) (ls : List Str) :
    ∀ l ∈ (removeClientBlocks tag ls).1, pyStrip l ≠ tag :=
  removeClientBlocks_no_tag_go tag ls.length ls (le_refl _)

theorem stripTrailingBlanks_sublist (ls : List Str) :
    List.Sublist (stripTrailingBlanks ls) ls := by
  unfold stripTrailingBlanks
  have h : List.IsSuffix (ls.reverse.dropWhile (fun l => pyStrip l == [])) ls.reverse :=
    List.dropWhile_suffix _
  have h2 := (List.IsSuffix.sublist h).reverse
  rwa [List.reverse_reverse] at h2

/-- Lines kept by the removal pass, after trailing-blank stripping, never
carry the tag. -/
theorem keptTagFilter_nil (tag : Str) (ls : List Str) :
    (stripTrailingBlanks (removeClientBlocks tag ls).1).filter
      (fun l => pyStrip l == tag) = [] := by
  rw [List.filter_eq_nil_iff]
  intro a ha
  have hmem : a ∈ (removeClientBlocks tag ls).1 :=
    (stripTrailingBlanks_sublist _).subset ha
  have hne := removeClientBlocks_no_tag tag ls a hmem
  simpa using hne

/-- Removing a client with no replacement block leaves a file with no tag
line for that client. -/
theorem modifyWgConfig_remove_tagCount (content clientName : Str) :
    tagCount (some (modifyWgConfig content clientName none).1) clientName = 0 := by
  simp only [tagCount, modifyWgConfig]
  have hchain : chainOk (stripTrailingBlanks
      (removeClientBlocks (tagLine clientName) (pyReadlines content)).1) = true :=
    chainOk_sublist ((stripTrailingBlanks_sublist _).trans
      (removeClientBlocks_sublist _ _)) (chainOk_readlines content)
  rw [pyReadlines_flatten_id _ hchain, keptTagFilter_nil]
  rfl

theorem tagLine_ne_nil (clientName : Str) : tagLine clientName ≠ [] := by
  simp [tagLine]

/-- Writing back with a fresh peer block whose own tag count is one yields a
file with exactly one tag line for the client. -/
theorem modifyWgConfig_add_tagCount (content clientName blk : Str)
    (hblk : ((pyReadlines (blk ++ ['\n'])).filter
        (fun l => pyStrip l == tagLine clientName)).length = 1) :
    tagCount (some (modifyWgConfig content clientName (some blk)).1) clientName = 1 := by
  simp only [tagCount, modifyWgConfig]
  have hchain : chainOk (stripTrailingBlanks
      (removeClientBlocks (tagLine clientName) (pyReadlines content)).1) = true :=
    chainOk_sublist ((stripTrailingBlanks_sublist _).trans
      (removeClientBlocks_sublist _ _)) (chainOk_readlines content)
  have hfl : ((stripTrailingBlanks
        (removeClientBlocks (tagLine clientName) (pyReadlines content)).1)
          ++ [['\n'], blk, ['\n']]).flatten
      = (stripTrailingBlanks
          (removeClientBlocks (tagLine clientName) (pyReadlines content)).1).flatten
        ++ '\n' :: (blk ++ ['\n']) := by
    rw [List.flatten_append]
    simp
  rw [hfl, readlines_count_append (tagLine clientName) (tagLine_ne_nil clientName)
    (stripTrailingBlanks (removeClientBlocks (tagLine clientName) (pyReadlines content)).1)
    hchain (blk ++ ['\n']), keptTagFilter_nil, hblk]
  rfl

/- ### The tag line under strip, for valid user ids -/

theorem validUserId_parts {uid : Str} (h : validUserId uid = true) :
    uid ≠ [] ∧ ∀ c ∈ uid, c.isDigit = true := by
  simp only [validUserId, Bool.and_eq_true, Bool.not_eq_true', beq_eq_false_iff_ne,
    ne_eq, List.all_eq_true] at h
  exact ⟨h.1, fun c hc => h.2 c hc⟩

theorem newline_not_mem_clientName {uid : Str} (h : validUserId uid = true) :
    '\n' ∉ ('n' :: uid : Str) := by
  rcases validUserId_parts h with ⟨-, hdig⟩
  intro hmem
  rcases List.mem_cons.mp hmem with heq | hmem
  · exact absurd heq (by decide)
  · exact absurd (hdig _ hmem) (by decide)

theorem tagLine_no_newline {cn : Str} (h : '\n' ∉ cn) : '\n' ∉ tagLine cn := by
  simp only [tagLine]
  intro hm
  rcases List.mem_append.mp hm with hl | hr
  · exact absurd hl (by decide)
  · exact h hr

theorem tagLine_strip {uid : Str} (h : validUserId uid = true) :
    pyStrip (tagLine ('n' :: uid)) = tagLine ('n' :: uid) := by
  rcases validUserId_parts h with ⟨hne, hdig⟩
  apply pyStrip_id
  · intro c hc
    have hhd : (tagLine ('n' :: uid)).head? = some '#' := rfl
    rw [hhd] at hc
    cases hc
    decide
  · intro c hc
    rcases List.eq_nil_or_concat uid with rfl | ⟨ys, y, hconc⟩
    · exact absurd rfl hne
    · rw [List.concat_eq_append] at hconc
      subst hconc
      have hrw : tagLine ('n' :: (ys ++ [y]))
          = (("# Client = ".data) ++ 'n' :: ys) ++ [y] := by
        simp [tagLine]
      rw [hrw, List.getLast?_concat] at hc
      have hy : y = c := Option.some.inj hc
      subst hy
      exact isDigit_not_pySpace (hdig y (by simp))

theorem noNl_not_mem {x : Str} (h : noNl x = true) : '\n' ∉ x := by
  simp only [noNl, Bool.not_eq_true'] at h
  exact not_mem_of_contains_eq_false h

/- ### The allocated client IP is newline-free -/

theorem digitChar_ne_newline (n : Nat) : Nat.digitChar n ≠ '\n' := by
  intro heq
  unfold Nat.digitChar at heq
  by_cases h0 : n = 0
  · rw [if_pos h0] at heq
    exact absurd heq (by decide)
  rw [if_neg h0] at heq
  by_cases h1 : n = 1
  · rw [if_pos h1] at heq
    exact absurd heq (by decide)
  rw [if_neg h1] at heq
  by_cases h2 : n = 2
  · rw [if_pos h2] at heq
    exact absurd heq (by decide)
  rw [if_neg h2] at heq
  by_cases h3 : n = 3
  · rw [if_pos h3] at heq
    exact absurd heq (by decide)
  rw [if_neg h3] at heq
  by_cases h4 : n = 4
  · rw [if_pos h4] at heq
    exact absurd heq (by decide)
  rw [if_neg h4] at heq
  by_cases h5 : n = 5
  · rw [if_pos h5] at heq
    exact absurd heq (by decide)
  rw [if_neg h5] at heq
  by_cases h6 : n = 6
  · rw [if_pos h6] at heq
    exact absurd heq (by decide)
  rw [if_neg h6] at heq
  by_cases h7 : n = 7
  · rw [if_pos h7] at heq
    exact absurd heq (by decide)
  rw [if_neg h7] at heq
  by_cases h8 : n = 8
  · rw [if_pos h8] at heq
    exact absurd heq (by decide)
  rw [if_neg h8] at heq
  by_cases h9 : n = 9
  · rw [if_pos h9] at heq
    exact absurd heq (by decide)
  rw [if_neg h9] at heq
  by_cases h10 : n = 10
  · rw [if_pos h10] at heq
    exact absurd heq (by decide)
  rw [if_neg h10] at heq
  by_cases h11 : n = 11
  · rw [if_pos h11] at heq
    exact absurd heq (by decide)
  rw [if_neg h11] at heq
  by_cases h12 : n = 12
  · rw [if_pos h12] at heq
    exact absurd heq (by decide)
  rw [if_neg h12] at heq
  by_cases h13 : n = 13
  · rw [if_pos h13] at heq
    exact absurd heq (by decide)
  rw [if_neg h13] at heq
  by_cases h14 : n = 14
  · rw [if_pos h14] at heq
    exact absurd heq (by decide)
  rw [if_neg h14] at heq
  by_cases h15 : n = 15
  · rw [if_pos h15] at heq
    exact absurd heq (by decide)
  rw [if_neg h15] at heq
  exact absurd heq (by decide)

theorem toDigitsCore_no_newline :
    ∀ (fuel n : Nat) (ds : List Char), (∀ c ∈ ds, c ≠ '\n') →
      ∀ c ∈ Nat.toDigitsCore 10 fuel n ds, c ≠ '\n' := by
  intro fuel
  induction fuel with
  | zero =>
    intro n ds hds c hc
    exact hds c hc
  | succ fuel ih =>
    intro n ds hds c hc
    simp only [Nat.toDigitsCore] at hc
    split at hc
    · rcases List.mem_cons.mp hc with rfl | hmem
      · exact digitChar_ne_newline _
      · exact hds c hmem
    · exact ih _ _ (fun x hx => by
        rcases List.mem_cons.mp hx with rfl | hxx
        · exact digitChar_ne_newline _
        · exact hds x hxx) c hc

theorem natToStr_no_newline (i : Nat) : '\n' ∉ natToStr i := by
  intro hm
  have h : natToStr i = Nat.toDigits 10 i := rfl
  rw [h] at hm
  exact toDigitsCore_no_newline (i + 1) i []
    (fun c hc => absurd hc (List.not_mem_nil c)) '\n' hm rfl

theorem takeWhile_take_eq (p : Char → Bool) (s : Str) :
    s.take (s.takeWhile p).length = s.takeWhile p := by
  have h : List.IsPrefix (s.takeWhile p) s := List.takeWhile_prefix p
  exact (List.prefix_iff_eq_take.mp h).symm

theorem octetDotLen_spec (s : Str) :
    octetDotLen s = 0 ∨
      (octetDotLen s = (s.takeWhile Char.isDigit).length + 1
        ∧ (s.drop (s.takeWhile Char.isDigit).length).head? = some '.') := by
  simp only [octetDotLen]
  by_cases hcond : 1 ≤ (s.takeWhile Char.isDigit).length
      ∧ (s.takeWhile Char.isDigit).length ≤ 3
      ∧ (s.drop (s.takeWhile Char.isDigit).length).head? = some '.'
  · right
    rw [if_pos hcond]
    exact ⟨rfl, hcond.2.2⟩
  · left
    rw [if_neg hcond]

theorem octetDotLen_chars (s : Str) (h : octetDotLen s ≠ 0) :
    ∀ c ∈ s.take (octetDotLen s), (c.isDigit || c == '.') = true := by
  rcases octetDotLen_spec s with h0 | ⟨heq, hdot⟩
  · exact absurd h0 h
  intro c hc
  rw [heq, List.take_succ] at hc
  rcases List.mem_append.mp hc with hc | hc
  · rw [takeWhile_take_eq] at hc
    have hd := List.mem_takeWhile_imp hc
    simp [hd]
  · have hgl : s[(s.takeWhile Char.isDigit).length]? = some '.' := by
      rw [← List.head?_drop]
      exact hdot
    rw [hgl] at hc
    simp only [Option.toList_some, List.mem_singleton] at hc
    subst hc
    decide

theorem lastOctetLen_chars (s : Str) :
    ∀ c ∈ s.take (lastOctetLen s), (c.isDigit || c == '.') = true := by
  intro c hc
  have hmin : lastOctetLen s ≤ (s.takeWhile Char.isDigit).length :=
    min_le_left _ _
  have hrw : s.take (lastOctetLen s)
      = (s.take (s.takeWhile Char.isDigit).length).take (lastOctetLen s) := by
    rw [List.take_take, min_eq_left hmin]
  rw [hrw, takeWhile_take_eq] at hc
  have hd := List.mem_takeWhile_imp (List.mem_of_mem_take hc)
  simp [hd]

theorem tripleLen_chars (s : Str) (h : tripleLen s ≠ 0) :
    ∀ c ∈ s.take (tripleLen s), (c.isDigit || c == '.') = true := by
  simp only [tripleLen] at h ⊢
  by_cases ha : octetDotLen s = 0
  · rw [if_pos ha] at h
    exact absurd rfl h
  rw [if_neg ha] at h ⊢
  by_cases hb : octetDotLen (s.drop (octetDotLen s)) = 0
  · rw [if_pos hb] at h
    exact absurd rfl h
  rw [if_neg hb] at h ⊢
  by_cases hd : lastOctetLen
      (s.drop (octetDotLen s + octetDotLen (s.drop (octetDotLen s)))) = 0
  · rw [if_pos hd] at h
    exact absurd rfl h
  rw [if_neg hd] at h ⊢
  intro c hc
  rw [List.take_add, List.take_add] at hc
  rcases List.mem_append.mp hc with hc2 | hc3
  · rcases List.mem_append.mp hc2 with hcA | hcB
    · exact octetDotLen_chars s ha c hcA
    · exact octetDotLen_chars _ hb c hcB
  · exact lastOctetLen_chars _ c hc3

theorem searchAddress_chars :
    ∀ (s base : Str), searchAddress s = some base →
      ∀ c ∈ base, (c.isDigit || c == '.') = true := by
  intro s
  induction s with
  | nil =>
    intro base h
    exact absurd h (by simp [searchAddress])
  | cons a rest ih =>
    intro base h c hc
    simp only [searchAddress] at h
    split at h
    · split at h
      · exact ih base h c hc
      · rename_i ht
        injection h with h
        subst h
        exact tripleLen_chars _ ht c hc
    · exact ih base h c hc

theorem findFreeIpGo_no_newline (base : Str) (existing : List Str)
    (hb : '\n' ∉ base) :
    ∀ (fuel i : Nat), findFreeIpGo base existing fuel i ≠ [] →
      '\n' ∉ findFreeIpGo base existing fuel i := by
  intro fuel
  induction fuel with
  | zero =>
    intro i hne
    exact absurd rfl hne
  | succ fuel ih =>
    intro i hne
    simp only [findFreeIpGo] at hne ⊢
    by_cases hmem : mkIp base i ∈ existing
    · rw [if_pos hmem] at hne ⊢
      exact ih _ hne
    · rw [if_neg hmem]
      intro hm
      simp only [mkIp] at hm
      rcases List.mem_append.mp hm with hm | hm
      · exact hb hm
      · rcases List.mem_cons.mp hm with heq | hm
        · exact absurd heq (by decide)
        · exact natToStr_no_newline i hm

theorem wgAllocateIp_no_newline (conf ip : Str)
    (h : wgAllocateIp conf = WgAlloc.ok ip) : '\n' ∉ ip := by
  unfold wgAllocateIp at h
  cases hsa : searchAddress conf with
  | none =>
    simp only [hsa] at h
    exact WgAlloc.noConfusion h
  | some base =>
    simp only [hsa] at h
    by_cases hff : findFreeIp base (findIPv4s conf) = []
    · rw [if_pos hff] at h
      exact absurd h (by simp)
    · rw [if_neg hff] at h
      injection h with h
      subst h
      have hbase : '\n' ∉ base := by
        intro hm
        exact absurd (searchAddress_chars conf base hsa '\n' hm) (by decide)
      exact findFreeIpGo_no_newline base (findIPv4s conf) hbase 253 2 hff

/- ### The fresh peer block carries exactly one tag line -/

theorem peerBlock_count (clientName priv pub psk ip : Str)
    (hstrip : pyStrip (tagLine clientName) = tagLine clientName)
    (hnlc : '\n' ∉ clientName)
    (hpriv : '\n' ∉ pyStrip priv) (hpub : '\n' ∉ pyStrip pub)
    (hpsk : '\n' ∉ pyStrip psk) (hip : '\n' ∉ ip) :
    ((pyReadlines (peerBlock clientName priv pub psk ip ++ ['\n'])).filter
      (fun l => pyStrip l == tagLine clientName)).length = 1 := by
  have hd : peerBlock clientName priv pub psk ip ++ ['\n']
      = tagLine clientName ++ '\n' ::
          (("# PrivateKey = ".data ++ pyStrip priv) ++ '\n' ::
            (("[Peer]".data : Str) ++ '\n' ::
              (("PublicKey = ".data ++ pyStrip pub) ++ '\n' ::
                (("PresharedKey = ".data ++ pyStrip psk) ++ '\n' ::
                  (("AllowedIPs = ".data ++ ip ++ "/32".data) ++ '\n' ::
                    ([] : Str)))))) := by
    simp [peerBlock, List.append_assoc]
  have n1 : '\n' ∉ tagLine clientName := tagLine_no_newline hnlc
  have n2 : '\n' ∉ ("# PrivateKey = ".data ++ pyStrip priv : Str) := by
    intro hm
    rcases List.mem_append.mp hm with hl | hr
    · exact absurd hl (by decide)
    · exact hpriv hr
  have n3 : '\n' ∉ ("[Peer]".data : Str) := by decide
  have n4 : '\n' ∉ ("PublicKey = ".data ++ pyStrip pub : Str) := by
    intro hm
    rcases List.mem_append.mp hm with hl | hr
    · exact absurd hl (by decide)
    · exact hpub hr
  have n5 : '\n' ∉ ("PresharedKey = ".data ++ pyStrip psk : Str) := by
    intro hm
    rcases List.mem_append.mp hm with hl | hr
    · exact absurd hl (by decide)
    · exact hpsk hr
  have n6 : '\n' ∉ ("AllowedIPs = ".data ++ ip ++ "/32".data : Str) := by
    intro hm
    rcases List.mem_append.mp hm with hm | hr
    · rcases List.mem_append.mp hm with hl | hi
      · exact absurd hl (by decide)
      · exact hip hi
    · exact absurd hr (by decide)
  rw [hd, pyReadlines_newline _ _ n1, pyReadlines_newline _ _ n2,
    pyReadlines_newline _ _ n3, pyReadlines_newline _ _ n4,
    pyReadlines_newline _ _ n5, pyReadlines_newline _ _ n6, pyReadlines_nil]
  have hp1 : (pyStrip (tagLine clientName ++ ['\n']) == tagLine clientName) = true := by
    rw [pyStrip_append_newline, hstrip]
    exact beq_self_eq_true _
  have hp2 : (pyStrip (("# PrivateKey = ".data ++ pyStrip priv) ++ ['\n'])
      == tagLine clientName) = false := by
    rw [pyStrip_append_newline,
      show ("# PrivateKey = ".data ++ pyStrip priv : Str)
        = "# PrivateKey =".data ++ (' ' :: pyStrip priv) from rfl]
    obtain ⟨r, hr⟩ := pyStrip_append_stem (' ' :: pyStrip priv) '#'
      (" PrivateKey =".data) rfl (by decide) ("# PrivateKey ".data) '=' rfl (by decide)
    rw [hr, beq_eq_false_iff_ne]
    intro heq
    have hL : (("# PrivateKey =".data : Str) ++ r)[2]? = some 'P' := rfl
    have hR : (tagLine clientName)[2]? = some 'C' := rfl
    rw [heq, hR] at hL
    exact absurd hL (by decide)
  have hp3 : (pyStrip (("[Peer]".data : Str) ++ ['\n']) == tagLine clientName) = false := by
    rw [pyStrip_append_newline,
      show pyStrip ("[Peer]".data) = ("[Peer]".data : Str) from by decide,
      beq_eq_false_iff_ne]
    intro heq
    have hL : ("[Peer]".data : Str)[0]? = some '[' := rfl
    have hR : (tagLine clientName)[0]? = some '#' := rfl
    rw [heq, hR] at hL
    exact absurd hL (by decide)
  have hp4 : (pyStrip (("PublicKey = ".data ++ pyStrip pub) ++ ['\n'])
      == tagLine clientName) = false := by
    rw [pyStrip_append_newline,
      show ("PublicKey = ".data ++ pyStrip pub : Str)
        = 'P' :: ("ublicKey = ".data ++ pyStrip pub) from rfl]
    obtain ⟨r, hr⟩ := pyStrip_head (c := 'P') ("ublicKey = ".data ++ pyStrip pub) (by decide)
    rw [hr, beq_eq_false_iff_ne]
    intro heq
    have hL : ('P' :: r : Str).head? = some 'P' := rfl
    have hR : (tagLine clientName).head? = some '#' := rfl
    rw [heq, hR] at hL
    exact absurd hL (by decide)
  have hp5 : (pyStrip (("PresharedKey = ".data ++ pyStrip psk) ++ ['\n'])
      == tagLine clientName) = false := by
    rw [pyStrip_append_newline,
      show ("PresharedKey = ".data ++ pyStrip psk : Str)
        = 'P' :: ("resharedKey = ".data ++ pyStrip psk) from rfl]
    obtain ⟨r, hr⟩ := pyStrip_head (c := 'P') ("resharedKey = ".data ++ pyStrip psk) (by decide)
    rw [hr, beq_eq_false_iff_ne]
    intro heq
    have hL : ('P' :: r : Str).head? = some 'P' := rfl
    have hR : (tagLine clientName).head? = some '#' := rfl
    rw [heq, hR] at hL
    exact absurd hL (by decide)
  have hp6 : (pyStrip (("AllowedIPs = ".data ++ ip ++ "/32".data) ++ ['\n'])
      == tagLine clientName) = false := by
    rw [pyStrip_append_newline,
      show ("AllowedIPs = ".data ++ ip ++ "/32".data : Str)
        = 'A' :: ("llowedIPs = ".data ++ ip ++ "/32".data) from by
          simp [List.append_assoc]]
    obtain ⟨r, hr⟩ := pyStrip_head (c := 'A') ("llowedIPs = ".data ++ ip ++ "/32".data)
      (by decide)
    rw [hr, beq_eq_false_iff_ne]
    intro heq
    have hL : ('A' :: r : Str).head? = some 'A' := rfl
    have hR : (tagLine clientName).head? = some '#' := rfl
    rw [heq, hR] at hL
    exact absurd hL (by decide)
  simp only [List.filter_cons, List.filter_nil, hp1, hp2, hp3, hp4, hp5, hp6]
  simp

/- ### State projections of the directory and file helpers -/

theorem dirAddFile_certs (s : VpnState) (n f : Str) : (dirAddFile s n f).certs = s.certs := rfl

theorem dirAddFile_wgAz (s : VpnState) (n f : Str) : (dirAddFile s n f).wgAz = s.wgAz := rfl

theorem dirAddFile_wgGl (s : VpnState) (n f : Str) : (dirAddFile s n f).wgGl = s.wgGl := rfl

theorem dirAddFile_xrayDb (s : VpnState) (n f : Str) :
    (dirAddFile s n f).xrayDb = s.xrayDb := rfl

theorem dirFilter_certs (s : VpnState) (n : Str) (keep : Str → Bool) :
    (dirFilter s n keep).certs = s.certs := rfl

theorem dirFilter_wgAz (s : VpnState) (n : Str) (keep : Str → Bool) :
    (dirFilter s n keep).wgAz = s.wgAz := rfl

theorem dirFilter_wgGl (s : VpnState) (n : Str) (keep : Str → Bool) :
    (dirFilter s n keep).wgGl = s.wgGl := rfl

theorem dirFilter_xrayDb (s : VpnState) (n : Str) (keep : Str → Bool) :
    (dirFilter s n keep).xrayDb = s.xrayDb := rfl

theorem ensureDir_certs (s : VpnState) (n : Str) : (ensureDir s n).certs = s.certs := by
  unfold ensureDir
  split <;> rfl

theorem ensureDir_wgAz (s : VpnState) (n : Str) : (ensureDir s n).wgAz = s.wgAz := by
  unfold ensureDir
  split <;> rfl

theorem ensureDir_wgGl (s : VpnState) (n : Str) : (ensureDir s n).wgGl = s.wgGl := by
  unfold ensureDir
  split <;> rfl

theorem ensureDir_xrayDb (s : VpnState) (n : Str) : (ensureDir s n).xrayDb = s.xrayDb := by
  unfold ensureDir
  split <;> rfl

theorem setNetFile_certs (s : VpnState) (net : WgNet) (f : Option Str) :
    (setNetFile s net f).certs = s.certs := by
  cases net <;> rfl

theorem setNetFile_xrayDb (s : VpnState) (net : WgNet) (f : Option Str) :
    (setNetFile s net f).xrayDb = s.xrayDb := by
  cases net <;> rfl

theorem netFile_dirAddFile (s : VpnState) (n f : Str) (net : WgNet) :
    netFile (dirAddFile s n f) net = netFile s net := by
  cases net <;> rfl

theorem netFile_dirFilter (s : VpnState) (n : Str) (keep : Str → Bool) (net : WgNet) :
    netFile (dirFilter s n keep) net = netFile s net := by
  cases net <;> rfl

theorem netFile_ensureDir (s : VpnState) (n : Str) (net : WgNet) :
    netFile (ensureDir s n) net = netFile s net := by
  cases net with
  | az => exact ensureDir_wgAz s n
  | gl => exact ensureDir_wgGl s n

theorem netFile_setNetFile_same (s : VpnState) (net : WgNet) (f : Option Str) :
    netFile (setNetFile s net f) net = f := by
  cases net <;> rfl

theorem netFile_setNetFile_other (s : VpnState) (net : WgNet) (f : Option Str) :
    netFile (setNetFile s net f) (otherNet net) = netFile s (otherNet net) := by
  cases net <;> rfl

/- ### The profile-writing folds only touch the artifact directories -/

theorem tplFold_certs (tpl : List Str) (cn : Str) (outs : List (Str × Str)) :
    ∀ s : VpnState,
      (outs.foldl (fun acc t => if tpl.contains t.1 then dirAddFile acc cn t.2 else acc)
        s).certs = s.certs := by
  induction outs with
  | nil =>
    intro s
    rfl
  | cons t ts ih =>
    intro s
    rw [List.foldl_cons, ih]
    by_cases hc : tpl.contains t.1 = true
    · rw [if_pos hc, dirAddFile_certs]
    · rw [if_neg hc]

theorem tplFold_wgAz (tpl : List Str) (cn : Str) (outs : List (Str × Str)) :
    ∀ s : VpnState,
      (outs.foldl (fun acc t => if tpl.contains t.1 then dirAddFile acc cn t.2 else acc)
        s).wgAz = s.wgAz := by
  induction outs with
  | nil =>
    intro s
    rfl
  | cons t ts ih =>
    intro s
    rw [List.foldl_cons, ih]
    by_cases hc : tpl.contains t.1 = true
    · rw [if_pos hc, dirAddFile_wgAz]
    · rw [if_neg hc]

theorem tplFold_wgGl (tpl : List Str) (cn : Str) (outs : List (Str × Str)) :
    ∀ s : VpnState,
      (outs.foldl (fun acc t => if tpl.contains t.1 then dirAddFile acc cn t.2 else acc)
        s).wgGl = s.wgGl := by
  induction outs with
  | nil =>
    intro s
    rfl
  | cons t ts ih =>
    intro s
    rw [List.foldl_cons, ih]
    by_cases hc : tpl.contains t.1 = true
    · rw [if_pos hc, dirAddFile_wgGl]
    · rw [if_neg hc]

theorem tplFold_xrayDb (tpl : List Str) (cn : Str) (outs : List (Str × Str)) :
    ∀ s : VpnState,
      (outs.foldl (fun acc t => if tpl.contains t.1 then dirAddFile acc cn t.2 else acc)
        s).xrayDb = s.xrayDb := by
  induction outs with
  | nil =>
    intro s
    rfl
  | cons t ts ih =>
    intro s
    rw [List.foldl_cons, ih]
    by_cases hc : tpl.contains t.1 = true
    · rw [if_pos hc, dirAddFile_xrayDb]
    · rw [if_neg hc]

theorem tplFold_netFile (tpl : List Str) (cn : Str) (net : WgNet) (outs : List (Str × Str)) :
    ∀ s : VpnState, netFile
      (outs.foldl (fun acc t => if tpl.contains t.1 then dirAddFile acc cn t.2 else acc) s)
        net = netFile s net := by
  cases net with
  | az => exact tplFold_wgAz tpl cn outs
  | gl => exact tplFold_wgGl tpl cn outs

/- ### The certificate list after add_openvpn -/

theorem containsStr_iff_mem (xs : List Str) (x : Str) : xs.contains x = true ↔ x ∈ xs := by
  simp [List.contains]

/-- The revoke-then-reissue step leaves exactly one active certificate for
the client, whatever the starting list. -/
theorem certs_fresh_count (old : List Str) (cn : Str) :
    ((cn :: (if old.contains cn then old.filter (fun c => !(c == cn)) else old)).filter
      (fun c => c == cn)).length = 1 := by
  rw [List.filter_cons]
  rw [if_pos (beq_self_eq_true cn)]
  have hnil : (if old.contains cn then old.filter (fun c => !(c == cn)) else old).filter
      (fun c => c == cn) = [] := by
    rw [List.filter_eq_nil_iff]
    intro a ha hq
    rw [beq_iff_eq] at hq
    subst hq
    by_cases hmem : old.contains a = true
    · rw [if_pos hmem] at ha
      have h1 := List.of_mem_filter ha
      simp at h1
    · rw [if_neg hmem] at ha
      exact hmem ((containsStr_iff_mem old a).mpr ha)
  rw [hnil]
  rfl

theorem addOpenvpn_cert_filter (s : VpnState) (env : Env) (cn : Str) :
    ((addOpenvpn s env cn).certs.filter (fun c => c == cn)).length = 1 := by
  simp only [addOpenvpn]
  split
  · exact certs_fresh_count _ cn
  · rw [tplFold_certs]
    exact certs_fresh_count _ cn

theorem addOpenvpn_wgAz (s : VpnState) (env : Env) (cn : Str) :
    (addOpenvpn s env cn).wgAz = s.wgAz := by
  simp only [addOpenvpn]
  split
  · exact ensureDir_wgAz s cn
  · rw [tplFold_wgAz]
    exact ensureDir_wgAz s cn

theorem addOpenvpn_wgGl (s : VpnState) (env : Env) (cn : Str) :
    (addOpenvpn s env cn).wgGl = s.wgGl := by
  simp only [addOpenvpn]
  split
  · exact ensureDir_wgGl s cn
  · rw [tplFold_wgGl]
    exact ensureDir_wgGl s cn

theorem addOpenvpn_xrayDb (s : VpnState) (env : Env) (cn : Str) :
    (addOpenvpn s env cn).xrayDb = s.xrayDb := by
  simp only [addOpenvpn]
  split
  · exact ensureDir_xrayDb s cn
  · rw [tplFold_xrayDb]
    exact ensureDir_xrayDb s cn

/- ### Lookup and row-count facts for the Xray users table -/

theorem lookupUserRow_none_filter {db : List (Str × Str)} {em : Str}
    (h : lookupUserRow db em = none) :
    db.filter (fun x => x.2 == em) = [] := by
  rw [lookupUserRow] at h
  rw [List.find?_eq_none] at h
  rw [List.filter_eq_nil_iff]
  intro a ha hq
  exact h a ha hq

theorem lookupUserRow_some_filter_len {db : List (Str × Str)} {em : Str} {row : Str × Str}
    (h : lookupUserRow db em = some row)
    (hle : (db.filter (fun x => x.2 == em)).length ≤ 1) :
    (db.filter (fun x => x.2 == em)).length = 1 := by
  have hmem : row ∈ db := List.mem_of_find?_eq_some h
  have hp : (row.2 == em) = true :=
    List.find?_some (p := fun x : Str × Str => x.2 == em) h
  have hmf : row ∈ db.filter (fun x => x.2 == em) := List.mem_filter.mpr ⟨hmem, hp⟩
  have hpos : 0 < (db.filter (fun x => x.2 == em)).length :=
    List.length_pos.mpr (List.ne_nil_of_mem hmf)
  omega

theorem filter_len_one_lookup_isSome {db : List (Str × Str)} {em : Str}
    (h : (db.filter (fun x => x.2 == em)).length = 1) :
    (lookupUserRow db em).isSome = true := by
  cases hl : lookupUserRow db em with
  | some row => rfl
  | none =>
    rw [lookupUserRow_none_filter hl] at h
    simp at h

theorem lookupUserRow_cons_self (uuid idf : Str) (db : List (Str × Str)) :
    lookupUserRow ((uuid, idf) :: db) idf = some (uuid, idf) := by
  simp [lookupUserRow, List.find?]

theorem filter_cons_self_len (uuid idf : Str) (db : List (Str × Str))
    (h : lookupUserRow db idf = none) :
    (((uuid, idf) :: db).filter (fun x => x.2 == idf)).length = 1 := by
  rw [List.filter_cons]
  rw [if_pos (show ((uuid, idf).2 == idf) = true from beq_self_eq_true idf)]
  rw [lookupUserRow_none_filter h]
  rfl

theorem any_or_false {db : List (Str × Str)} {uuid idf : Str}
    (h1 : lookupUserRow db idf = none)
    (h2 : db.any (fun x => x.1 == uuid) = false) :
    db.any (fun x => x.1 == uuid || x.2 == idf) = false := by
  rw [List.any_eq_false] at h2 ⊢
  rw [lookupUserRow] at h1
  rw [List.find?_eq_none] at h1
  intro e he
  simp only [Bool.or_eq_true, not_or]
  exact ⟨fun hq => h2 e he hq, fun hq => h1 e he hq⟩

/- ### handle_add_user touches only the Xray table, registrations and artifacts -/

theorem handleAddUserTail_certs (s1 : VpnState) (env : Env) (idf uid : Str) :
    (handleAddUser.handleAddUserTail s1 env idf uid).1.certs = s1.certs := by
  cases hra : env.remoteAdd with
  | raised => simp [handleAddUser.handleAddUserTail, hra]
  | rejected => simp [handleAddUser.handleAddUserTail, hra]
  | ok =>
    by_cases hv : env.vlessConfigured = true <;>
      simp [handleAddUser.handleAddUserTail, hra, hv, dirAddFile_certs, ensureDir_certs]

theorem handleAddUserTail_wgAz (s1 : VpnState) (env : Env) (idf uid : Str) :
    (handleAddUser.handleAddUserTail s1 env idf uid).1.wgAz = s1.wgAz := by
  cases hra : env.remoteAdd with
  | raised => simp [handleAddUser.handleAddUserTail, hra]
  | rejected => simp [handleAddUser.handleAddUserTail, hra]
  | ok =>
    by_cases hv : env.vlessConfigured = true <;>
      simp [handleAddUser.handleAddUserTail, hra, hv, dirAddFile_wgAz, ensureDir_wgAz]

theorem handleAddUserTail_wgGl (s1 : VpnState) (env : Env) (idf uid : Str) :
    (handleAddUser.handleAddUserTail s1 env idf uid).1.wgGl = s1.wgGl := by
  cases hra : env.remoteAdd with
  | raised => simp [handleAddUser.handleAddUserTail, hra]
  | rejected => simp [handleAddUser.handleAddUserTail, hra]
  | ok =>
    by_cases hv : env.vlessConfigured = true <;>
      simp [handleAddUser.handleAddUserTail, hra, hv, dirAddFile_wgGl, ensureDir_wgGl]

theorem handleAddUserTail_xrayDb (s1 : VpnState) (env : Env) (idf uid : Str) :
    (handleAddUser.handleAddUserTail s1 env idf uid).1.xrayDb = s1.xrayDb := by
  cases hra : env.remoteAdd with
  | raised => simp [handleAddUser.handleAddUserTail, hra]
  | rejected => simp [handleAddUser.handleAddUserTail, hra]
  | ok =>
    by_cases hv : env.vlessConfigured = true <;>
      simp [handleAddUser.handleAddUserTail, hra, hv, dirAddFile_xrayDb, ensureDir_xrayDb]

theorem handleAddUser_certs (s : VpnState) (env : Env) (idf : Str) :
    (handleAddUser s env idf).1.certs = s.certs := by
  cases hlook : lookupUserRow s.xrayDb idf with
  | some row =>
    cases hdf : dirFiles s idf with
    | none =>
      simp only [handleAddUser, hlook, hdf]
      rw [handleAddUserTail_certs]
    | some files =>
      cases files with
      | nil =>
        simp only [handleAddUser, hlook, hdf]
        rw [handleAddUserTail_certs]
      | cons f fs =>
        simp only [handleAddUser, hlook, hdf]
  | none =>
    simp only [handleAddUser, hlook]
    split
    · rfl
    · rw [handleAddUserTail_certs]

theorem handleAddUser_wgAz (s : VpnState) (env : Env) (idf : Str) :
    (handleAddUser s env idf).1.wgAz = s.wgAz := by
  cases hlook : lookupUserRow s.xrayDb idf with
  | some row =>
    cases hdf : dirFiles s idf with
    | none =>
      simp only [handleAddUser, hlook, hdf]
      rw [handleAddUserTail_wgAz]
    | some files =>
      cases files with
      | nil =>
        simp only [handleAddUser, hlook, hdf]
        rw [handleAddUserTail_wgAz]
      | cons f fs =>
        simp only [handleAddUser, hlook, hdf]
  | none =>
    simp only [handleAddUser, hlook]
    split
    · rfl
    · rw [handleAddUserTail_wgAz]

theorem handleAddUser_wgGl (s : VpnState) (env : Env) (idf : Str) :
    (handleAddUser s env idf).1.wgGl = s.wgGl := by
  cases hlook : lookupUserRow s.xrayDb idf with
  | some row =>
    cases hdf : dirFiles s idf with
    | none =>
      simp only [handleAddUser, hlook, hdf]
      rw [handleAddUserTail_wgGl]
    | some files =>
      cases files with
      | nil =>
        simp only [handleAddUser, hlook, hdf]
        rw [handleAddUserTail_wgGl]
      | cons f fs =>
        simp only [handleAddUser, hlook, hdf]
  | none =>
    simp only [handleAddUser, hlook]
    split
    · rfl
    · rw [handleAddUserTail_wgGl]

theorem handleAddUser_xrayDb_present (s : VpnState) (env : Env) (idf : Str)
    (row : Str × Str) (hlook : lookupUserRow s.xrayDb idf = some row) :
    (handleAddUser s env idf).1.xrayDb = s.xrayDb := by
  cases hdf : dirFiles s idf with
  | none =>
    simp only [handleAddUser, hlook, hdf]
    rw [handleAddUserTail_xrayDb]
  | some files =>
    cases files with
    | nil =>
      simp only [handleAddUser, hlook, hdf]
      rw [handleAddUserTail_xrayDb]
    | cons f fs =>
      simp only [handleAddUser, hlook, hdf]

theorem handleAddUser_xrayDb_absent (s : VpnState) (env : Env) (idf : Str)
    (hlook : lookupUserRow s.xrayDb idf = none)
    (hfresh : s.xrayDb.any (fun x => x.1 == env.newUuid || x.2 == idf) = false) :
    (handleAddUser s env idf).1.xrayDb = (env.newUuid, idf) :: s.xrayDb := by
  simp only [handleAddUser, hlook, hfresh, Bool.false_eq_true, if_false]
  rw [handleAddUserTail_xrayDb]

/- ### add_wireguard leaves at most one tagged peer block per network -/

theorem addWireguardNet_spec (s : VpnState) (env : Env) (uid : Str) (net : WgNet)
    (conf : Str)
    (hvalid : validUserId uid = true)
    (hlock : envLock env net = false)
    (hfile : netFile s net = some conf)
    (hk1 : noNl (pyStrip (envKeys env net).1) = true)
    (hk2 : noNl (pyStrip (envKeys env net).2.1) = true)
    (hk3 : noNl (pyStrip (envKeys env net).2.2) = true) :
    (addWireguardNet s env ('n' :: uid) net).2 = Except.ok ()
      ∧ (netFile (addWireguardNet s env ('n' :: uid) net).1 net).isSome = true
      ∧ tagCount (netFile (addWireguardNet s env ('n' :: uid) net).1 net) ('n' :: uid) ≤ 1
      ∧ netFile (addWireguardNet s env ('n' :: uid) net).1 (otherNet net)
          = netFile s (otherNet net)
      ∧ (addWireguardNet s env ('n' :: uid) net).1.certs = s.certs
      ∧ (addWireguardNet s env ('n' :: uid) net).1.xrayDb = s.xrayDb := by
  have hnl : ¬ (envLock env net = true) := by
    rw [hlock]
    decide
  cases halloc : wgAllocateIp ((modifyWgConfig conf ('n' :: uid) none).1) with
  | noBase =>
    have hred : addWireguardNet s env ('n' :: uid) net
        = (setNetFile s net (some ((modifyWgConfig conf ('n' :: uid) none).1)),
           Except.ok ()) := by
      simp only [addWireguardNet]
      rw [if_neg hnl, hfile]
      simp only [modifyWgFile, halloc]
    rw [hred]
    refine ⟨rfl, ?_, ?_, ?_, ?_, ?_⟩
    · rw [netFile_setNetFile_same]
      rfl
    · rw [netFile_setNetFile_same, modifyWgConfig_remove_tagCount]
      exact Nat.zero_le _
    · rw [netFile_setNetFile_other]
    · rw [setNetFile_certs]
    · rw [setNetFile_xrayDb]
  | exhausted =>
    have hred : addWireguardNet s env ('n' :: uid) net
        = (setNetFile s net (some ((modifyWgConfig conf ('n' :: uid) none).1)),
           Except.ok ()) := by
      simp only [addWireguardNet]
      rw [if_neg hnl, hfile]
      simp only [modifyWgFile, halloc]
    rw [hred]
    refine ⟨rfl, ?_, ?_, ?_, ?_, ?_⟩
    · rw [netFile_setNetFile_same]
      rfl
    · rw [netFile_setNetFile_same, modifyWgConfig_remove_tagCount]
      exact Nat.zero_le _
    · rw [netFile_setNetFile_other]
    · rw [setNetFile_certs]
    · rw [setNetFile_xrayDb]
  | ok ip =>
    have hred : addWireguardNet s env ('n' :: uid) net
        = ((wgOutputs env.today net).foldl
            (fun acc t => if env.wgTemplates.contains t.1 then dirAddFile acc ('n' :: uid) t.2
              else acc)
            (setNetFile (setNetFile s net (some ((modifyWgConfig conf ('n' :: uid) none).1)))
              net
              (some ((modifyWgConfig ((modifyWgConfig conf ('n' :: uid) none).1) ('n' :: uid)
                (some (peerBlock ('n' :: uid) (envKeys env net).1 (envKeys env net).2.1
                  (envKeys env net).2.2 ip))).1))),
           Except.ok ()) := by
      simp only [addWireguardNet]
      rw [if_neg hnl, hfile]
      simp only [modifyWgFile, halloc]
    have hcount : tagCount (some ((modifyWgConfig ((modifyWgConfig conf ('n' :: uid) none).1)
        ('n' :: uid) (some (peerBlock ('n' :: uid) (envKeys env net).1 (envKeys env net).2.1
          (envKeys env net).2.2 ip))).1)) ('n' :: uid) = 1 :=
      modifyWgConfig_add_tagCount _ _ _
        (peerBlock_count ('n' :: uid) (envKeys env net).1 (envKeys env net).2.1
          (envKeys env net).2.2 ip (tagLine_strip hvalid) (newline_not_mem_clientName hvalid)
          (noNl_not_mem hk1) (noNl_not_mem hk2) (noNl_not_mem hk3)
          (wgAllocateIp_no_newline _ ip halloc))
    rw [hred]
    refine ⟨rfl, ?_, ?_, ?_, ?_, ?_⟩
    · rw [tplFold_netFile, netFile_setNetFile_same]
      rfl
    · rw [tplFold_netFile, netFile_setNetFile_same, hcount]
    · rw [tplFold_netFile, netFile_setNetFile_other, netFile_setNetFile_other]
    · rw [tplFold_certs, setNetFile_certs, setNetFile_certs]
    · rw [tplFold_xrayDb, setNetFile_xrayDb, setNetFile_xrayDb]

theorem addWireguard_spec (s : VpnState) (env : Env) (uid : Str)
    (hvalid : validUserId uid = true) (henv : envWgOk env = true)
    (ha : s.wgAz.isSome = true) (hg : s.wgGl.isSome = true) :
    (addWireguard s env ('n' :: uid)).2 = Except.ok ()
      ∧ (addWireguard s env ('n' :: uid)).1.wgAz.isSome = true
      ∧ tagCount (addWireguard s env ('n' :: uid)).1.wgAz ('n' :: uid) ≤ 1
      ∧ (addWireguard s env ('n' :: uid)).1.wgGl.isSome = true
      ∧ tagCount (addWireguard s env ('n' :: uid)).1.wgGl ('n' :: uid) ≤ 1
      ∧ (addWireguard s env ('n' :: uid)).1.certs = s.certs
      ∧ (addWireguard s env ('n' :: uid)).1.xrayDb = s.xrayDb := by
  obtain ⟨a, hA⟩ := Option.isSome_iff_exists.mp ha
  obtain ⟨g, hG⟩ := Option.isSome_iff_exists.mp hg
  simp only [envWgOk, Bool.and_eq_true, Bool.not_eq_true'] at henv
  rcases henv with ⟨⟨⟨⟨⟨⟨⟨⟨hLA, hLG⟩, hSK⟩, hA1⟩, hA2⟩, hA3⟩, hG1⟩, hG2⟩, hG3⟩
  have hfa : netFile (dirFilter (ensureDir s ('n' :: uid)) ('n' :: uid)
      (fun f => !(pyEndswith f (".conf".data)))) WgNet.az = some a := by
    rw [netFile_dirFilter, netFile_ensureDir]
    exact hA
  obtain ⟨hok1, hsome1, htag1, hoth1, hcerts1, hdb1⟩ :=
    addWireguardNet_spec (dirFilter (ensureDir s ('n' :: uid)) ('n' :: uid)
      (fun f => !(pyEndswith f (".conf".data)))) env uid WgNet.az a hvalid hLA hfa hA1 hA2 hA3
  rcases hres : addWireguardNet (dirFilter (ensureDir s ('n' :: uid)) ('n' :: uid)
      (fun f => !(pyEndswith f (".conf".data)))) env ('n' :: uid) WgNet.az with ⟨sa, ra⟩
  rw [hres] at hok1 hsome1 htag1 hoth1 hcerts1 hdb1
  dsimp only at hok1 hsome1 htag1 hoth1 hcerts1 hdb1
  subst hok1
  have hfg2 : netFile sa WgNet.gl = some g := by
    have h2 : netFile sa WgNet.gl
        = netFile (dirFilter (ensureDir s ('n' :: uid)) ('n' :: uid)
            (fun f => !(pyEndswith f (".conf".data)))) WgNet.gl := hoth1
    rw [h2, netFile_dirFilter, netFile_ensureDir]
    exact hG
  obtain ⟨hok2, hsome2, htag2, hoth2, hcerts2, hdb2⟩ :=
    addWireguardNet_spec sa env uid WgNet.gl g hvalid hLG hfg2 hG1 hG2 hG3
  have hred : addWireguard s env ('n' :: uid)
      = addWireguardNet sa env ('n' :: uid) WgNet.gl := by
    simp only [addWireguard]
    rw [if_neg (show ¬ ((!env.wgServerKey) = true) from by rw [hSK]; decide)]
    simp only [hres]
  have hazeq : (addWireguardNet sa env ('n' :: uid) WgNet.gl).1.wgAz = sa.wgAz := hoth2
  refine ⟨?_, ?_, ?_, ?_, ?_, ?_, ?_⟩
  · rw [hred]
    exact hok2
  · rw [hred, hazeq]
    exact hsome1
  · rw [hred, hazeq]
    exact htag1
  · rw [hred]
    exact hsome2
  · rw [hred]
    exact htag2
  · rw [hred, hcerts2, hcerts1]
    exact ensureDir_certs s ('n' :: uid)
  · rw [hred, hdb2, hdb1]
    exact ensureDir_xrayDb s ('n' :: uid)

/- ### Claim theorems -/

/-- C6: for every path, `file_lock(path)` fails the whole operation with an
already-running IOError as soon as `<path>.lock` exists, leaving the
filesystem (in particular the protected file) untouched; otherwise it runs
the critical section on a filesystem where `<path>.lock` holds the current
process id, propagates the critical section's outcome, and removes the lock
marker on exit whether the critical section succeeded or failed. -/
theorem c6_file_lock_contract {α : Type} (fs : FS) (path pid : Str)
    (body : FS → FS × Except PyErr α) :
    (fsExists fs (path ++ lockSuffix) = true →
      fileLock fs path pid body = (fs, Except.error PyErr.ioError))
    ∧ (fsExists fs (path ++ lockSuffix) = false →
      fsRead (fsWrite fs (path ++ lockSuffix) pid) (path ++ lockSuffix) = some pid
      ∧ (fileLock fs path pid body).2 = (body (fsWrite fs (path ++ lockSuffix) pid)).2
      ∧ fsExists (fileLock fs path pid body).1 (path ++ lockSuffix) = false) := by
  constructor
  · intro h
    simp only [fileLock, h, if_true]
  · intro h
    refine ⟨?_, ?_, ?_⟩
    · simp [fsRead, fsWrite]
    · simp only [fileLock, h, Bool.false_eq_true, if_false]
    · simp only [fileLock, h, Bool.false_eq_true, if_false]
      by_cases hex :
          fsExists (body (fsWrite fs (path ++ lockSuffix) pid)).1 (path ++ lockSuffix) = true
      · simp only [hex, if_true]
        exact fsExists_fsRemove _ _
      · simp only [Bool.not_eq_true] at hex
        simp only [hex, Bool.false_eq_true, if_false]

/-- Witness for C6 at concrete inputs: a held lock makes `fileLock` fail with
the filesystem unchanged, and without contention the lock marker is gone at
exit. -/
theorem c6_file_lock_contract_witness :
    fileLock [((['p'] ++ lockSuffix), ['7'])] ['p'] ['9']
        (fun fs => (fs, Except.ok (0 : Nat)))
      = ([((['p'] ++ lockSuffix), ['7'])], Except.error PyErr.ioError)
    ∧ fsExists
        (fileLock ([] : FS) ['p'] ['9'] (fun fs => (fs, Except.ok (0 : Nat)))).1
        (['p'] ++ lockSuffix) = false :=
  ⟨(c6_file_lock_contract [((['p'] ++ lockSuffix), ['7'])] ['p'] ['9']
      (fun fs => (fs, Except.ok (0 : Nat)))).1 (by decide),
   ((c6_file_lock_contract ([] : FS) ['p'] ['9']
      (fun fs => (fs, Except.ok (0 : Nat)))).2 (by decide)).2.2⟩

/-- C7: `run_command` returns the `(None, None)` failure sentinel exactly when
the subprocess exit code is non-zero, in which case the printed log contains
a line holding the exit code and the stderr text and a line holding the
joined command; on a zero exit code it returns the decoded
`(stdout, stderr)` pair. -/
theorem c7_run_command_sentinel (args : List Str) (p : ProcResult) :
    ((runCommand args p).1 = (none, none) ↔ p.returncode ≠ 0)
    ∧ (p.returncode ≠ 0 →
      ∃ l ∈ (runCommand args p).2,
        (toString p.returncode).data <:+: l ∧ p.stderrData <:+: l)
    ∧ (p.returncode ≠ 0 →
      ∃ l ∈ (runCommand args p).2, pyJoin (" ".data) args <:+: l)
    ∧ (p.returncode = 0 →
      (runCommand args p).1 = (some p.stdoutData, some p.stderrData)) := by
  by_cases h : p.returncode = 0
  · refine ⟨?_, ?_, ?_, ?_⟩
    · simp [runCommand, h]
    · intro hc; exact absurd h hc
    · intro hc; exact absurd h hc
    · intro _; simp [runCommand, h]
  · refine ⟨?_, ?_, ?_, ?_⟩
    · simp [runCommand, h]
    · intro _
      refine ⟨("Message: ".data) ++ (("Command failed with exit code ".data)
        ++ (toString p.returncode).data ++ (":\n".data) ++ p.stderrData),
        ?_, ?_, ?_⟩
      · simp [runCommand, h]
      · exact ⟨("Message: ".data) ++ ("Command failed with exit code ".data),
          (":\n".data) ++ p.stderrData, by simp⟩
      · exact ⟨("Message: ".data) ++ ("Command failed with exit code ".data)
          ++ (toString p.returncode).data ++ (":\n".data), [], by simp⟩
    · intro _
      refine ⟨("Error at line N/A: ".data) ++ pyJoin (" ".data) args, ?_, ?_⟩
      · simp [runCommand, h]
      · exact ⟨("Error at line N/A: ".data), [], by simp⟩
    · intro hc; exact absurd hc h

/-- Witness for C7 at concrete inputs: exit code 1 yields the sentinel, exit
code 0 yields the decoded output pair. -/
theorem c7_run_command_sentinel_witness :
    (runCommand [['w'], ['g']] ⟨1, [], ['b', 'a', 'd']⟩).1 = (none, none)
    ∧ (runCommand [['w'], ['g']] ⟨0, ['o', 'k'], []⟩).1 = (some ['o', 'k'], some []) :=
  ⟨(c7_run_command_sentinel [['w'], ['g']] ⟨1, [], ['b', 'a', 'd']⟩).1.mpr (by decide),
   (c7_run_command_sentinel [['w'], ['g']] ⟨0, ['o', 'k'], []⟩).2.2.2 (by decide)⟩

/-- C9: `extract_cert_content` is total (modelled on the read outcome): it
returns the empty string when the file is unreadable or either PEM marker is
absent, and when the content decomposes around the first occurrence of each
marker it returns exactly the substring from the begin marker through the
end marker inclusive. -/
theorem c9_extract_cert_content (file : Option Str) :
    (file = none → extractCertContent file = [])
    ∧ (∀ content, file = some content →
      ((pyFind content beginMarker = -1 ∨ pyFind content endMarker = -1) →
        extractCertContent file = [])
      ∧ (∀ pre mid post,
          content = pre ++ beginMarker ++ mid ++ endMarker ++ post →
          firstIdxAux beginMarker content 0 = some pre.length →
          firstIdxAux endMarker content 0
            = some (pre.length + beginMarker.length + mid.length) →
          extractCertContent file = beginMarker ++ mid ++ endMarker)) := by
  constructor
  · intro h; rw [h]; rfl
  · intro content hc
    constructor
    · intro habs
      rw [hc]
      simp only [extractCertContent]
      rcases habs with h1 | h1 <;> simp [h1]
    · intro pre mid post hdec h1 h2
      rw [hc]
      simp only [extractCertContent, pyFind, h1, h2]
      have hne1 : ((pre.length : Int) ≠ -1) := by omega
      have hne2 : (((pre.length + beginMarker.length + mid.length : Nat) : Int) ≠ -1) := by
        omega
      rw [if_pos ⟨hne1, hne2⟩]
      have harith :
          (((pre.length + beginMarker.length + mid.length : Nat) : Int)
            + (endMarker.length : Int)).toNat
          = pre.length + (beginMarker.length + mid.length + endMarker.length) := by
        omega
      have htn : ((pre.length : Int)).toNat = pre.length := by omega
      rw [harith, htn, hdec]
      have hgroup : pre ++ beginMarker ++ mid ++ endMarker ++ post
          = (pre ++ (beginMarker ++ mid ++ endMarker)) ++ post := by
        simp [List.append_assoc]
      rw [hgroup, List.take_left' (by simp [List.append_assoc]; omega)]
      exact List.drop_left pre (beginMarker ++ mid ++ endMarker)

/-- C2: when the network file's `Address` line yields a base subnet, the
allocated client IP is `base.i` for the least `i` in `[2, 254]` such that
`base.i` is not among the IPv4-looking tokens of the file; allocation
reports exhaustion exactly when all 253 candidates occur in the file; and
each network of the `["antizapret", "vpn"]` loop is processed from its own
configuration independently, so one network's failure leaves the other's
outcome unchanged. -/
theorem c2_wireguard_ip_allocation (conf base : Str)
    (hbase : searchAddress conf = some base) :
    (∀ ip, wgAllocateIp conf = WgAlloc.ok ip →
      ∃ i, 2 ≤ i ∧ i ≤ 254 ∧ ip = mkIp base i ∧ mkIp base i ∉ findIPv4s conf
        ∧ ∀ j, 2 ≤ j → j < i → mkIp base j ∈ findIPv4s conf)
    ∧ (wgAllocateIp conf = WgAlloc.exhausted ↔
        ∀ i, 2 ≤ i → i ≤ 254 → mkIp base i ∈ findIPv4s conf)
    ∧ (∀ az gl : Str, wgProcessNetworks [az, gl] = [wgAllocateIp az, wgAllocateIp gl]) := by
  have hunfold : wgAllocateIp conf
      = if findFreeIp base (findIPv4s conf) = [] then WgAlloc.exhausted
        else WgAlloc.ok (findFreeIp base (findIPv4s conf)) := by
    unfold wgAllocateIp
    rw [hbase]
  refine ⟨?_, ?_, ?_⟩
  · intro ip hip
    rw [hunfold] at hip
    by_cases hnil : findFreeIp base (findIPv4s conf) = []
    · rw [if_pos hnil] at hip
      exact absurd hip (by simp)
    · rw [if_neg hnil] at hip
      injection hip with hip'
      rcases findFreeIpGo_ok base (findIPv4s conf) 253 2 ip hip'
          (by rw [← hip']; exact hnil) with ⟨i, h1, h2, h3, h4, h5⟩
      exact ⟨i, h1, by omega, h3, h4, h5⟩
  · rw [hunfold]
    by_cases hnil : findFreeIp base (findIPv4s conf) = []
    · rw [if_pos hnil]
      have hall := (findFreeIpGo_eq_nil_iff base (findIPv4s conf) 253 2).mp hnil
      constructor
      · intro _ i h1 h2
        exact hall i h1 (by omega)
      · intro _
        rfl
    · rw [if_neg hnil]
      constructor
      · intro h
        exact absurd h (by simp)
      · intro hall
        exact absurd ((findFreeIpGo_eq_nil_iff base (findIPv4s conf) 253 2).mpr
          (fun i h1 h2 => hall i h1 (by omega))) hnil
  · intro az gl
    rfl

/-- Witness for C2 at a concrete configuration content. -/
theorem c2_wireguard_ip_allocation_witness :
    searchAddress ("Address = 10.0.0.1/24".data) = some ("10.0.0".data)
    ∧ (wgAllocateIp ("Address = 10.0.0.1/24".data) = WgAlloc.exhausted ↔
        ∀ i, 2 ≤ i → i ≤ 254 →
          mkIp ("10.0.0".data) i ∈ findIPv4s ("Address = 10.0.0.1/24".data)) :=
  ⟨by decide,
   (c2_wireguard_ip_allocation ("Address = 10.0.0.1/24".data) ("10.0.0".data)
      (by decide)).2.1⟩

/-- C3: for every well-formed template (literal chunks free of `$`, variable
names grammatical) and variables map (grammatical names, values free of
`$`), `render` replaces each `${VAR}` occurrence whose name is in the map by
that variable's value, and removes every `${UNKNOWN}` token whose name is
not in the map (empty string), never leaving such a token literally in the
output: the result is exactly the claim-level substitution `renderedSegs`. -/
theorem c3_render_substitution (segs : List Seg) (vmap : List (Str × Str))
    (hm : ∀ kv ∈ vmap, goodEntry kv = true)
    (hsegs : ∀ sg ∈ segs, goodSeg sg = true) :
    render (segsText segs) vmap = renderedSegs segs vmap := by
  unfold render
  rw [renderFold_segsText vmap segs hm hsegs]
  rw [reSubVars_segsText _ (fun sg hsg => by
    rcases List.mem_map.mp hsg with ⟨sg', hsg', rfl⟩
    cases sg' with
    | lit s => exact hsegs _ hsg'
    | var n =>
      simp only [substSeg]
      cases hl : lookupVar n vmap with
      | none => exact hsegs _ hsg'
      | some v =>
        rcases lookupVar_mem hl with ⟨kv, hmem, -, rfl⟩
        simp only [goodSeg, Bool.not_eq_true']
        exact contains_eq_false_of_not_mem (goodEntry_parts (hm kv hmem)).2)]
  unfold renderedSegs
  rw [List.map_map]
  refine congrArg List.flatten (List.map_congr_left ?_)
  intro sg _
  cases sg with
  | lit s => rfl
  | var n =>
    simp only [Function.comp_apply, substSeg]
    cases hl : lookupVar n vmap with
    | none => rfl
    | some v => rfl

/-- Witness for C3 at a concrete template and map: `${SERVER_HOST}` becomes
`1.2.3.4` and `${UNKNOWN_VAR}` is removed. -/
theorem c3_render_substitution_witness :
    render (segsText [Seg.lit ("host = ".data), Seg.var ("SERVER_HOST".data),
        Seg.lit ("\n".data), Seg.var ("UNKNOWN_VAR".data), Seg.lit ("!".data)])
        [(("SERVER_HOST".data), ("1.2.3.4".data))]
      = ("host = 1.2.3.4\n!".data) :=
  (c3_render_substitution
    [Seg.lit ("host = ".data), Seg.var ("SERVER_HOST".data),
      Seg.lit ("\n".data), Seg.var ("UNKNOWN_VAR".data), Seg.lit ("!".data)]
    [(("SERVER_HOST".data), ("1.2.3.4".data))]
    (by decide) (by decide)).trans (by decide)

/-- C4 (code bug witness): for an identity already present in the Xray user
table whose artifact directory holds a generated file, `handle_add_user`
does not delete the old `.json`/`.txt` artifacts and never reaches the
remote re-add: its cleanup loop evaluates
`f.endswith(f.endswith(".json") or f.endswith(".txt"))`, handing a bool to
`str.endswith`, which raises TypeError at the first file. The call aborts
with the state — table, remote registrations, artifacts — unchanged,
contradicting the claimed re-provisioning behaviour (the correct idiom
appears in `handle_remove_user`, line 992). -/
theorem c4_handle_add_user_reprovision_bug :
    handleAddUser
      { certs := [], wgAz := none, wgGl := none,
        xrayDb := [(("u-1".data), ('n' :: ("42".data)))],
        xrayRemote := [(("u-1".data), ('n' :: ("42".data)))],
        dirs := [(('n' :: ("42".data)), [("AZ-XR-25-01-01.json".data)])] }
      envStd ('n' :: ("42".data))
    = ({ certs := [], wgAz := none, wgGl := none,
         xrayDb := [(("u-1".data), ('n' :: ("42".data)))],
         xrayRemote := [(("u-1".data), ('n' :: ("42".data)))],
         dirs := [(('n' :: ("42".data)), [("AZ-XR-25-01-01.json".data)])] },
       Except.error PyErr.typeError) := rfl

/-- C10: for a fresh identity, `handle_add_user` inserts the local
`(uuid, email)` row before the remote add; when the remote add is rejected
or raises, the call returns without rolling the row back — the table keeps
it while no remote registration and no artifacts were created — and a
subsequent add finds that row and re-provisions with the same UUID. -/
theorem c10_add_user_no_rollback (s : VpnState) (env : Env) (identifier : Str)
    (hnone : lookupUserRow s.xrayDb identifier = none)
    (hfresh : s.xrayDb.any (fun e => e.1 == env.newUuid || e.2 == identifier) = false)
    (hfail : env.remoteAdd ≠ RemoteAdd.ok) :
    (handleAddUser s env identifier).2 = Except.ok ()
    ∧ (handleAddUser s env identifier).1.xrayDb = (env.newUuid, identifier) :: s.xrayDb
    ∧ (handleAddUser s env identifier).1.xrayRemote = s.xrayRemote
    ∧ (handleAddUser s env identifier).1.dirs = s.dirs
    ∧ lookupUserRow (handleAddUser s env identifier).1.xrayDb identifier
        = some (env.newUuid, identifier)
    ∧ (∀ env' : Env, env'.remoteAdd = RemoteAdd.ok →
        (dirFiles s identifier = none ∨ dirFiles s identifier = some []) →
        (handleAddUser (handleAddUser s env identifier).1 env' identifier).1.xrayRemote
          = (env.newUuid, identifier)
            :: (handleAddUser s env identifier).1.xrayRemote.filter
                (fun e => !(e.2 == identifier))) := by
  have h1 : handleAddUser s env identifier
      = ({ s with xrayDb := (env.newUuid, identifier) :: s.xrayDb }, Except.ok ()) := by
    simp only [handleAddUser, hnone, hfresh, Bool.false_eq_true, if_false]
    cases henv : env.remoteAdd with
    | ok => exact absurd henv hfail
    | rejected => simp [handleAddUser.handleAddUserTail, henv]
    | raised => simp [handleAddUser.handleAddUserTail, henv]
  have hlook : lookupUserRow ((env.newUuid, identifier) :: s.xrayDb) identifier
      = some (env.newUuid, identifier) := by
    simp [lookupUserRow, List.find?]
  refine ⟨by rw [h1], by rw [h1], by rw [h1], by rw [h1], by rw [h1]; exact hlook, ?_⟩
  intro env' hok hdir
  rw [h1]
  have hdir' : dirFiles { s with xrayDb := (env.newUuid, identifier) :: s.xrayDb }
      identifier = dirFiles s identifier := rfl
  simp only [handleAddUser, hlook]
  rcases hdir with hd | hd <;>
    rw [hdir', hd] <;>
    simp only [handleAddUser.handleAddUserTail, hok] <;>
    by_cases hv : env'.vlessConfigured <;>
    simp [hv, dirAddFile_xrayRemote, ensureDir_xrayRemote]

/-- Witness for C10 at a concrete fresh identity with a rejected remote
add. -/
theorem c10_add_user_no_rollback_witness :
    lookupUserRow sampleState.xrayDb ('n' :: ("7".data)) = none
    ∧ (handleAddUser sampleState envRejected ('n' :: ("7".data))).1.xrayDb
        = [(("uuid-1".data), ('n' :: ("7".data)))]
    ∧ (handleAddUser sampleState envRejected ('n' :: ("7".data))).1.xrayRemote
        = sampleState.xrayRemote :=
  ⟨by decide,
   ((c10_add_user_no_rollback sampleState envRejected ('n' :: ("7".data))
      (by decide) (by decide) (by decide)).2.1),
   ((c10_add_user_no_rollback sampleState envRejected ('n' :: ("7".data))
      (by decide) (by decide) (by decide)).2.2.1)⟩

/-- C5 counterexample: for an identity tagged in neither network file,
`delete_wireguard` does mutate a peer-table file: on an antizapret file
with a trailing blank line, `modify_wg_config` rewrites the file with the
trailing blank line stripped, so the content changes even though the
client was not found. -/
theorem c5_counterexample :
    tagFound (some azSampleBlank) ("nghost".data) = false
    ∧ tagFound (some glSample) ("nghost".data) = false
    ∧ (deleteWireguard
        { certs := [], wgAz := some azSampleBlank, wgGl := some glSample,
          xrayDb := [], xrayRemote := [], dirs := [] } ("nghost".data)).1.wgAz
      ≠ some azSampleBlank := by
  refine ⟨?_, ?_, ?_⟩
  · simp +decide [tagFound, pyReadlines, pyStrip, pySpace, tagLine, azSampleBlank]
  · simp +decide [tagFound, pyReadlines, pyStrip, pySpace, tagLine, glSample]
  · simp +decide [deleteWireguard, modifyWgFile, modifyWgConfig, removeClientBlocks,
      stripTrailingBlanks, pyReadlines, tagLine, pyStrip, pySpace, azSampleBlank, glSample]

/-- C5 (amended): for an identity whose tag appears in neither network
file, `delete_wireguard` reports not-found, invokes no interface resync,
deletes no client artifacts, and leaves the peer lines of both files
intact — each file is however rewritten with its trailing blank lines
stripped, and is byte-identical only when it had no trailing blank line. -/
theorem c5_delete_wireguard_not_found (s : VpnState) (clientName : Str)
    (haz : tagFound s.wgAz clientName = false)
    (hgl : tagFound s.wgGl clientName = false) :
    (deleteWireguard s clientName).2.1 = false
    ∧ (deleteWireguard s clientName).2.2 = []
    ∧ (deleteWireguard s clientName).1.dirs = s.dirs
    ∧ (deleteWireguard s clientName).1.certs = s.certs
    ∧ (deleteWireguard s clientName).1.xrayDb = s.xrayDb
    ∧ (∀ c, s.wgAz = some c →
        (deleteWireguard s clientName).1.wgAz
          = some (stripTrailingBlanks (pyReadlines c)).flatten)
    ∧ (∀ c, s.wgAz = some c → lastLineNotBlank c = true →
        (deleteWireguard s clientName).1.wgAz = s.wgAz)
    ∧ (∀ c, s.wgGl = some c →
        (deleteWireguard s clientName).1.wgGl
          = some (stripTrailingBlanks (pyReadlines c)).flatten)
    ∧ (∀ c, s.wgGl = some c → lastLineNotBlank c = true →
        (deleteWireguard s clientName).1.wgGl = s.wgGl) := by
  have hmain : deleteWireguard s clientName
      = ({ s with
            wgAz := s.wgAz.map (fun c => (stripTrailingBlanks (pyReadlines c)).flatten),
            wgGl := s.wgGl.map (fun c => (stripTrailingBlanks (pyReadlines c)).flatten) },
         false, []) := by
    simp only [deleteWireguard, modifyWgFile_not_found s.wgAz clientName haz,
      modifyWgFile_not_found s.wgGl clientName hgl]
    simp
  have hlast : ∀ c : Str, lastLineNotBlank c = true →
      (stripTrailingBlanks (pyReadlines c)).flatten = c := by
    intro c hc
    rw [stripTrailingBlanks_id]
    · exact pyReadlines_flatten c
    · intro l hl
      simp only [lastLineNotBlank, hl] at hc
      simpa using hc
  refine ⟨by rw [hmain], by rw [hmain], by rw [hmain], by rw [hmain], by rw [hmain],
    ?_, ?_, ?_, ?_⟩
  · intro c hc
    rw [hmain]
    simp [hc]
  · intro c hc hnb
    rw [hmain]
    simp [hc, hlast c hnb]
  · intro c hc
    rw [hmain]
    simp [hc]
  · intro c hc hnb
    rw [hmain]
    simp [hc, hlast c hnb]

/-- Witness for the amended C5 at a concrete not-found deletion. -/
theorem c5_delete_wireguard_not_found_witness :
    tagFound (some azSample) ("nghost".data) = false
    ∧ (deleteWireguard sampleState ("nghost".data)).2.1 = false
    ∧ (deleteWireguard sampleState ("nghost".data)).2.2 = []
    ∧ (deleteWireguard sampleState ("nghost".data)).1.dirs = sampleState.dirs :=
  ⟨by simp +decide [tagFound, pyReadlines, pyStrip, pySpace, tagLine, azSample],
   (c5_delete_wireguard_not_found sampleState ("nghost".data)
      (by simp +decide [tagFound, pyReadlines, pyStrip, pySpace, tagLine, sampleState,
        azSample])
      (by simp +decide [tagFound, pyReadlines, pyStrip, pySpace, tagLine, sampleState,
        glSample])).1,
   (c5_delete_wireguard_not_found sampleState ("nghost".data)
      (by simp +decide [tagFound, pyReadlines, pyStrip, pySpace, tagLine, sampleState,
        azSample])
      (by simp +decide [tagFound, pyReadlines, pyStrip, pySpace, tagLine, sampleState,
        glSample])).2.1,
   (c5_delete_wireguard_not_found sampleState ("nghost".data)
      (by simp +decide [tagFound, pyReadlines, pyStrip, pySpace, tagLine, sampleState,
        azSample])
      (by simp +decide [tagFound, pyReadlines, pyStrip, pySpace, tagLine, sampleState,
        glSample])).2.2.1⟩

/-- C8: at the end of `delete_user`, the identity's artifact directory is
removed exactly when it exists and is empty after the three protocol
deletions; a non-empty directory — and everything else — is left in
place. -/
theorem c8_delete_user_dir_cleanup (s : VpnState) (env : Env) (userId : Str) :
    (dirFiles (deleteUserMid s env userId) ('n' :: userId) = some [] →
      deleteUser s env userId = removeDir (deleteUserMid s env userId) ('n' :: userId)
      ∧ dirExists (deleteUser s env userId) ('n' :: userId) = false)
    ∧ (∀ f fs, dirFiles (deleteUserMid s env userId) ('n' :: userId) = some (f :: fs) →
      deleteUser s env userId = deleteUserMid s env userId
      ∧ dirExists (deleteUser s env userId) ('n' :: userId) = true)
    ∧ (dirFiles (deleteUserMid s env userId) ('n' :: userId) = none →
      deleteUser s env userId = deleteUserMid s env userId
      ∧ dirExists (deleteUser s env userId) ('n' :: userId) = false) := by
  refine ⟨?_, ?_, ?_⟩
  · intro h
    have he : deleteUser s env userId
        = removeDir (deleteUserMid s env userId) ('n' :: userId) := by
      simp only [deleteUser, h]
    refine ⟨he, ?_⟩
    rw [he]
    simp only [dirExists, dirFiles, removeDir]
    rw [Bool.eq_false_iff]
    intro hs
    rw [Option.isSome_iff_exists] at hs
    rcases hs with ⟨fs, hfs⟩
    rcases Option.map_eq_some'.mp hfs with ⟨d, hd, -⟩
    have hmem := List.mem_of_find?_eq_some hd
    have hp := List.find?_some hd
    have := List.of_mem_filter hmem
    rw [hp] at this
    exact Bool.noConfusion this
  · intro f fs h
    have he : deleteUser s env userId = deleteUserMid s env userId := by
      simp only [deleteUser, h]
    refine ⟨he, ?_⟩
    rw [he]
    simp only [dirExists, h, Option.isSome_some]
  · intro h
    have he : deleteUser s env userId = deleteUserMid s env userId := by
      simp only [deleteUser, h]
    refine ⟨he, ?_⟩
    rw [he]
    simp only [dirExists, h, Option.isSome_none]

/-- Witness for C8: a delete over a state whose client directory is empty
after the protocol deletions removes the directory. -/
theorem c8_delete_user_dir_cleanup_witness :
    dirFiles (deleteUserMid
      { certs := [], wgAz := none, wgGl := none, xrayDb := [], xrayRemote := [],
        dirs := [(('n' :: ("7".data)), [])] } envStd ("7".data)) ('n' :: ("7".data))
      = some []
    ∧ dirExists (deleteUser
      { certs := [], wgAz := none, wgGl := none, xrayDb := [], xrayRemote := [],
        dirs := [(('n' :: ("7".data)), [])] } envStd ("7".data)) ('n' :: ("7".data))
      = false :=
  ⟨by decide,
   ((c8_delete_user_dir_cleanup
      { certs := [], wgAz := none, wgGl := none, xrayDb := [], xrayRemote := [],
        dirs := [(('n' :: ("7".data)), [])] } envStd ("7".data)).1 (by decide)).2⟩

/-- Witness for C9 at a concrete certificate file content. -/
theorem c9_extract_cert_content_witness :
    extractCertContent (some (("k=1\n".data) ++ beginMarker ++ ("abc".data)
        ++ endMarker ++ ("\n".data)))
      = beginMarker ++ ("abc".data) ++ endMarker :=
  (((c9_extract_cert_content (some (("k=1\n".data) ++ beginMarker ++ ("abc".data)
      ++ endMarker ++ ("\n".data)))).2 _ rfl).2 (("k=1\n").data) (("abc").data)
      (("\n").data) rfl (by decide) (by decide))

/-- C1: for every valid user id, calling `create_user` twice in a row over a
state whose network files exist, whose users table holds at most one row for
the derived identity, and whose fresh UUID is unused, leaves exactly one
active certificate for `n<user_id>`, at most one `# Client = n<user_id>`
peer block in each WireGuard network file, and exactly one Xray users-table
row for the identity; the second call reuses the existing row rather than
inserting a duplicate (its table equals the first call's). -/
theorem c1_create_user_idempotent (s : VpnState) (env1 env2 : Env) (uid : Str)
    (hvalid : validUserId uid = true)
    (henv1 : envWgOk env1 = true) (henv2 : envWgOk env2 = true)
    (hx1 : env1.xrayReachable = true) (hx2 : env2.xrayReachable = true)
    (haz : s.wgAz.isSome = true) (hgl : s.wgGl.isSome = true)
    (hrows : (s.xrayDb.filter (fun x => x.2 == 'n' :: uid)).length ≤ 1)
    (huuid : s.xrayDb.any (fun x => x.1 == env1.newUuid) = false) :
    (((createUser (createUser s env1 uid).1 env2 uid).1.certs.filter
        (fun c => c == 'n' :: uid)).length = 1)
    ∧ tagCount (createUser (createUser s env1 uid).1 env2 uid).1.wgAz ('n' :: uid) ≤ 1
    ∧ tagCount (createUser (createUser s env1 uid).1 env2 uid).1.wgGl ('n' :: uid) ≤ 1
    ∧ (((createUser (createUser s env1 uid).1 env2 uid).1.xrayDb.filter
        (fun x => x.2 == 'n' :: uid)).length = 1)
    ∧ (createUser (createUser s env1 uid).1 env2 uid).1.xrayDb
        = (createUser s env1 uid).1.xrayDb := by
  have hoaz1 : (addOpenvpn s env1 ('n' :: uid)).wgAz.isSome = true := by
    rw [addOpenvpn_wgAz]
    exact haz
  have hogl1 : (addOpenvpn s env1 ('n' :: uid)).wgGl.isSome = true := by
    rw [addOpenvpn_wgGl]
    exact hgl
  obtain ⟨hwok1, hwaz1, hwtagaz1, hwgl1, hwtaggl1, hwcerts1, hwdb1⟩ :=
    addWireguard_spec (addOpenvpn s env1 ('n' :: uid)) env1 uid hvalid henv1 hoaz1 hogl1
  rcases hres1 : addWireguard (addOpenvpn s env1 ('n' :: uid)) env1 ('n' :: uid)
    with ⟨w1, r1e⟩
  rw [hres1] at hwok1 hwaz1 hwtagaz1 hwgl1 hwtaggl1 hwcerts1 hwdb1
  dsimp only at hwok1 hwaz1 hwtagaz1 hwgl1 hwtaggl1 hwcerts1 hwdb1
  subst hwok1
  have hdbw1 : w1.xrayDb = s.xrayDb := by
    rw [hwdb1, addOpenvpn_xrayDb]
  have hredC1 : createUser s env1 uid = handleAddUser w1 env1 ('n' :: uid) := by
    simp only [createUser, hres1]
    rw [if_pos hx1]
  have hr1db : ((createUser s env1 uid).1.xrayDb.filter
      (fun x => x.2 == 'n' :: uid)).length = 1 := by
    rw [hredC1]
    cases hlook1 : lookupUserRow s.xrayDb ('n' :: uid) with
    | some row =>
      have hlw : lookupUserRow w1.xrayDb ('n' :: uid) = some row := by
        rw [hdbw1]
        exact hlook1
      rw [handleAddUser_xrayDb_present w1 env1 ('n' :: uid) row hlw, hdbw1]
      exact lookupUserRow_some_filter_len hlook1 hrows
    | none =>
      have hlw : lookupUserRow w1.xrayDb ('n' :: uid) = none := by
        rw [hdbw1]
        exact hlook1
      have hfresh : w1.xrayDb.any
          (fun x => x.1 == env1.newUuid || x.2 == 'n' :: uid) = false := by
        rw [hdbw1]
        exact any_or_false hlook1 huuid
      rw [handleAddUser_xrayDb_absent w1 env1 ('n' :: uid) hlw hfresh, hdbw1]
      exact filter_cons_self_len env1.newUuid ('n' :: uid) s.xrayDb hlook1
  have hr1az : (createUser s env1 uid).1.wgAz.isSome = true := by
    rw [hredC1, handleAddUser_wgAz]
    exact hwaz1
  have hr1gl : (createUser s env1 uid).1.wgGl.isSome = true := by
    rw [hredC1, handleAddUser_wgGl]
    exact hwgl1
  have hoaz2 : (addOpenvpn (createUser s env1 uid).1 env2 ('n' :: uid)).wgAz.isSome
      = true := by
    rw [addOpenvpn_wgAz]
    exact hr1az
  have hogl2 : (addOpenvpn (createUser s env1 uid).1 env2 ('n' :: uid)).wgGl.isSome
      = true := by
    rw [addOpenvpn_wgGl]
    exact hr1gl
  obtain ⟨hwok2, hwaz2, hwtagaz2, hwgl2, hwtaggl2, hwcerts2, hwdb2⟩ :=
    addWireguard_spec (addOpenvpn (createUser s env1 uid).1 env2 ('n' :: uid)) env2 uid
      hvalid henv2 hoaz2 hogl2
  rcases hres2 : addWireguard (addOpenvpn (createUser s env1 uid).1 env2 ('n' :: uid)) env2
    ('n' :: uid) with ⟨w2, r2e⟩
  rw [hres2] at hwok2 hwaz2 hwtagaz2 hwgl2 hwtaggl2 hwcerts2 hwdb2
  dsimp only at hwok2 hwaz2 hwtagaz2 hwgl2 hwtaggl2 hwcerts2 hwdb2
  subst hwok2
  have hdbw2 : w2.xrayDb = (createUser s env1 uid).1.xrayDb := by
    rw [hwdb2, addOpenvpn_xrayDb]
  have hredC2 : createUser (createUser s env1 uid).1 env2 uid
      = handleAddUser w2 env2 ('n' :: uid) := by
    set r1 := (createUser s env1 uid).1 with hr1
    simp only [createUser, hres2]
    rw [if_pos hx2]
  have hlw2s : (lookupUserRow w2.xrayDb ('n' :: uid)).isSome = true := by
    apply filter_len_one_lookup_isSome
    rw [hdbw2]
    exact hr1db
  obtain ⟨row2, hrow2⟩ := Option.isSome_iff_exists.mp hlw2s
  have hdb2eq : (createUser (createUser s env1 uid).1 env2 uid).1.xrayDb
      = (createUser s env1 uid).1.xrayDb := by
    rw [hredC2, handleAddUser_xrayDb_present w2 env2 ('n' :: uid) row2 hrow2, hdbw2]
  refine ⟨?_, ?_, ?_, ?_, hdb2eq⟩
  · rw [hredC2, handleAddUser_certs, hwcerts2]
    exact addOpenvpn_cert_filter (createUser s env1 uid).1 env2 ('n' :: uid)
  · rw [hredC2, handleAddUser_wgAz]
    exact hwtagaz2
  · rw [hredC2, handleAddUser_wgGl]
    exact hwtaggl2
  · rw [hdb2eq]
    exact hr1db

/-- Witness for C1 at a concrete healthy state and user id. -/
theorem c1_create_user_idempotent_witness :
    validUserId ("7".data) = true
    ∧ ((((createUser (createUser sampleState envStd ("7".data)).1 envStd2
          ("7".data)).1.certs.filter (fun c => c == 'n' :: ("7".data))).length = 1)
      ∧ tagCount (createUser (createUser sampleState envStd ("7".data)).1 envStd2
            ("7".data)).1.wgAz ('n' :: ("7".data)) ≤ 1
      ∧ tagCount (createUser (createUser sampleState envStd ("7".data)).1 envStd2
            ("7".data)).1.wgGl ('n' :: ("7".data)) ≤ 1
      ∧ (((createUser (createUser sampleState envStd ("7".data)).1 envStd2
            ("7".data)).1.xrayDb.filter (fun x => x.2 == 'n' :: ("7".data))).length = 1)
      ∧ (createUser (createUser sampleState envStd ("7".data)).1 envStd2
            ("7".data)).1.xrayDb = (createUser sampleState envStd ("7".data)).1.xrayDb) :=
  ⟨by decide,
   c1_create_user_idempotent sampleState envStd envStd2 ("7".data) (by decide) (by decide)
     (by decide) (by decide) (by decide) (by decide) (by decide) (by decide) (by decide)⟩

end UtyaVPN
